import Mathlib

/-!
# prometheus-query-proxy: a shallow embedding of `lib/proxy.go`

The proxy routes Prometheus API requests to one of several datasources
(`handleQuery`, `handleQueryRange`), or fans a label-values request out to
all of them and merges the answers (`handleLabelNameValues`).

Conventions of the embedding.

* A Go `string` is a `GoString`, a list of characters.
* A `time.Duration` is an `Int` count of nanoseconds; the `int64` arithmetic
  of the source is written with `wrapInt64`.
* A `time.Time` is an `Int` count of nanoseconds since the Unix epoch.
* A `float64` is a `Float64`: a finite non-negative value stored as a multiple
  of `2^-1074`, or `+Inf`.  Only non-negative values arise, since the numeric
  branch of the parsers is guarded by `^[0-9\.]+$`.
* Functions of the Go standard library are modelled next to their call sites;
  `time.Parse` is a field of `Runtime`.
-/

set_option exponentiation.threshold 5000

namespace PromQueryProxy

deriving instance DecidableEq for Except

/-! ## Strings -/

/-- A Go string. -/
abbrev GoString := List Char

/-- The Go expression `strings.HasSuffix(a, "/")`. -/
def hasSuffixSlash (a : GoString) : Bool :=
  a.getLast? == some '/'

/-- The Go expression `strings.HasPrefix(b, "/")`. -/
def hasPrefixSlash (b : GoString) : Bool :=
  b.head? == some '/'

/-- Source: `singleJoiningSlash` (proxy.go). -/
def singleJoiningSlash (a b : GoString) : GoString :=
  let aslash := hasSuffixSlash a
  let bslash := hasPrefixSlash b
  if aslash && bslash then a ++ b.drop 1
  else if !aslash && !bslash then a ++ "/".toList ++ b
  else a ++ b

/-! ## Regular expressions

The two patterns of proxy.go are anchored with `^` and `$`, so
`MatchString` holds exactly when the whole string matches the body.  The
matcher works by derivatives. -/

/-- Regular expressions over characters. -/
inductive Regex where
  | none : Regex
  | eps : Regex
  | cls (p : Char → Bool) : Regex
  | seq (r s : Regex) : Regex
  | alt (r s : Regex) : Regex
  | star (r : Regex) : Regex

namespace Regex

/-- One or more repetitions, the operator `+`. -/
def plus (r : Regex) : Regex := seq r (star r)

/-- A literal string. -/
def lit : GoString → Regex
  | [] => eps
  | c :: cs => seq (cls (fun d => d == c)) (lit cs)

/-- Whether the expression matches the empty string. -/
def nullable : Regex → Bool
  | none => false
  | eps => true
  | cls _ => false
  | seq r s => nullable r && nullable s
  | alt r s => nullable r || nullable s
  | star _ => true

/-- The derivative of an expression by one character. -/
def deriv : Regex → Char → Regex
  | none, _ => none
  | eps, _ => none
  | cls p, c => if p c then eps else none
  | seq r s, c =>
      if nullable r then alt (seq (deriv r c) s) (deriv s c) else seq (deriv r c) s
  | alt r s, c => alt (deriv r c) (deriv s c)
  | star r, c => seq (deriv r c) (star r)

/-- Whole-string match: `MatchString` for a pattern written `^r$`. -/
def MatchString (r : Regex) (s : GoString) : Bool :=
  nullable (s.foldl deriv r)

/-- The strings an expression denotes. -/
inductive Denotes : Regex → GoString → Prop
  | eps : Denotes eps []
  | cls (p : Char → Bool) (c : Char) : p c = true → Denotes (cls p) [c]
  | seq (r s : Regex) (u v : GoString) : Denotes r u → Denotes s v → Denotes (seq r s) (u ++ v)
  | altL (r s : Regex) (u : GoString) : Denotes r u → Denotes (alt r s) u
  | altR (r s : Regex) (u : GoString) : Denotes s u → Denotes (alt r s) u
  | starNil (r : Regex) : Denotes (star r) []
  | starCons (r : Regex) (u v : GoString) :
      Denotes r u → Denotes (star r) v → Denotes (star r) (u ++ v)

end Regex

/-- Source: `digitsRe = regexp.MustCompile("^[0-9\\.]+$")`. -/
def digitsRe : Regex :=
  Regex.plus (Regex.cls (fun c => ('0' ≤ c && c ≤ '9') || c == '.'))

/-- Source: `labelValuesPathRe = regexp.MustCompile("^/api/v1/label/[^/]+/values$")`. -/
def labelValuesPathRe : Regex :=
  Regex.seq (Regex.lit "/api/v1/label/".toList)
    (Regex.seq (Regex.plus (Regex.cls (fun c => c != '/'))) (Regex.lit "/values".toList))

/-- Source: `isDigit` (proxy.go). -/
def isDigit (s : GoString) : Bool :=
  digitsRe.MatchString s

/-! ## Machine integers -/

/-- The value of an `int64` expression whose mathematical value is `x`. -/
def wrapInt64 (x : Int) : Int :=
  (x + 2 ^ 63) % 2 ^ 64 - 2 ^ 63

/-- Whether `x` is representable as an `int64`. -/
def isInt64 (x : Int) : Prop :=
  -(2 : Int) ^ 63 ≤ x ∧ x < 2 ^ 63

instance (x : Int) : Decidable (isInt64 x) := by
  unfold isInt64; infer_instance

/-! ## Configuration (config.go) -/

/-- The fields of a `url.URL` the proxy reads. -/
structure URL where
  Scheme : GoString
  Host : GoString
  Path : GoString
deriving DecidableEq, Repr

/-- Source: `DatasourceConfig`, the parsed fields. -/
structure DatasourceConfig where
  URL : URL
  Resolution : Int
  Retention : Int
  StartTime : Int
deriving DecidableEq, Repr

/-- Source: `Config`. -/
structure Config where
  Datasources : List DatasourceConfig
deriving DecidableEq, Repr

/-- The Go pointer `targetDs *DatasourceConfig`: `none` is `nil`, otherwise the
position in `Datasources` together with the element found there. -/
abbrev DsPtr := Option (Nat × DatasourceConfig)

/-! ## Selection loops

`time.Now()` is read inside the loop body, in every iteration that reaches
it.  The readings are the function `clock`: `clock i` is the reading taken in
the iteration for the datasource at position `i`. -/

/-- One iteration of the loop of `handleQuery` (proxy.go, lines 106-118), for
the datasource `ds` at position `i`. -/
def queryLoopBody (clock : Nat → Int) (t : Int) (targetDs : DsPtr) (i : Nat)
    (ds : DatasourceConfig) : DsPtr :=
  if ds.Retention ≠ 0 ∧ t < clock i + wrapInt64 (ds.Retention * -1) then
    targetDs
  else
    match targetDs with
    | Option.none => some (i, ds)
    | some (_, tds) => if tds.Resolution > ds.Resolution then some (i, ds) else targetDs

/-- The loop of `handleQuery` over the datasources remaining from position `i`. -/
def queryLoop (clock : Nat → Int) (t : Int) : DsPtr → Nat → List DatasourceConfig → DsPtr
  | targetDs, _, [] => targetDs
  | targetDs, i, ds :: rest =>
      queryLoop clock t (queryLoopBody clock t targetDs i ds) (i + 1) rest

/-- One iteration of the loop of `handleQueryRange` (proxy.go, lines 67-85). -/
def queryRangeLoopBody (clock : Nat → Int) (start end_ step : Int) (targetDs : DsPtr) (i : Nat)
    (ds : DatasourceConfig) : DsPtr :=
  let retentionStart := clock i + wrapInt64 (ds.Retention * -1)
  if ds.Retention ≠ 0 ∧ (start < retentionStart ∨ end_ < retentionStart) then
    targetDs
  else
    let stepResolutionGap := wrapInt64 (step - ds.Resolution)
    if stepResolutionGap < 0 then
      targetDs
    else
      match targetDs with
      | Option.none => some (i, ds)
      | some (_, tds) =>
          if stepResolutionGap < wrapInt64 (step - tds.Resolution) then some (i, ds) else targetDs

/-- The loop of `handleQueryRange` over the datasources remaining from position `i`. -/
def queryRangeLoop (clock : Nat → Int) (start end_ step : Int) :
    DsPtr → Nat → List DatasourceConfig → DsPtr
  | targetDs, _, [] => targetDs
  | targetDs, i, ds :: rest =>
      queryRangeLoop clock start end_ step
        (queryRangeLoopBody clock start end_ step targetDs i ds) (i + 1) rest

/-- The datasource `handleQuery` selects for the timestamp `t`. -/
def selectInstant (clock : Nat → Int) (t : Int) (cfg : Config) : DsPtr :=
  queryLoop clock t Option.none 0 cfg.Datasources

/-- The datasource `handleQueryRange` selects for `start`, `end`, `step`. -/
def selectRange (clock : Nat → Int) (start end_ step : Int) (cfg : Config) : DsPtr :=
  queryRangeLoop clock start end_ step Option.none 0 cfg.Datasources

/-! ## float64

Every finite `float64` is an integer multiple of `2^-1074`, so a finite
non-negative value is stored as that integer.  Results are rounded to 53
significant bits, ties to even, as IEEE 754 prescribes; a result of `2^1024`
or more is `+Inf`. -/

/-- A non-negative `float64`: `fin u` is the value `u * 2^-1074`. -/
inductive Float64 where
  | fin (u : Nat) : Float64
  | inf : Float64
deriving DecidableEq, Repr

/-- The number of binary digits of `n`, computed with `fuel` steps. -/
def bitLen : Nat → Nat → Nat
  | 0, _ => 0
  | fuel + 1, n => if n = 0 then 0 else bitLen fuel (n / 2) + 1

/-- The integer nearest to `p / q`, ties to even. -/
def roundHalfEven (p q : Nat) : Nat :=
  let d := p / q
  let r := p % q
  if 2 * r < q then d
  else if q < 2 * r then d + 1
  else if d % 2 = 0 then d else d + 1

namespace Float64

/-- The `float64` nearest to `(p / q) * 2^-1074`. -/
def round (p q : Nat) : Float64 :=
  let s := bitLen (p / q) (p / q) - 53
  let u := 2 ^ s * roundHalfEven p (q * 2 ^ s)
  if u < 2 ^ 2098 then fin u else inf

/-- The `float64` nearest to the rational `p / q`. -/
def ofRat (p q : Nat) : Float64 :=
  round (p * 2 ^ 1074) q

/-- The conversion `float64(n)` of an unsigned integer. -/
def ofNat (n : Nat) : Float64 :=
  ofRat n 1

/-- The product `x * y`; no operand here is zero when the other is infinite. -/
def mul : Float64 → Float64 → Float64
  | fin a, fin b => round (a * b) (2 ^ 1074)
  | _, _ => inf

/-- The quotient `x / y` of finite values, `y` not zero. -/
def div : Float64 → Float64 → Float64
  | fin a, fin b => if b = 0 then inf else round (a * 2 ^ 1074) b
  | _, _ => inf

/-- The integer part of a finite value. -/
def trunc : Float64 → Option Nat
  | fin u => some (u / 2 ^ 1074)
  | inf => Option.none

end Float64

/-! ## Errors of the standard library -/

/-- The Go error values the parsers return: `*strconv.NumError`,
`*time.ParseError`, and the result of `errors.New`. -/
inductive GoError where
  | numError (Func Num Err : GoString) : GoError
  | parseError (Layout Value LayoutElem ValueElem Message : GoString) : GoError
  | errorString (s : GoString) : GoError
deriving DecidableEq, Repr

/-- The double quote character. -/
def dquote : Char := Char.ofNat 34

/-- The backslash character. -/
def bslash : Char := Char.ofNat 92

/-- A lower-case hexadecimal digit. -/
def lowerhex (n : Nat) : Char :=
  "0123456789abcdef".toList.getD n '0'

/-- One character as `time.quote` writes it: bytes of non-ASCII and control
characters as `\xNN`, the double quote and the backslash behind a backslash,
anything else unchanged. -/
def quoteChar (c : Char) : GoString :=
  if c.toNat ≥ 128 ∨ c.toNat < 32 then
    (String.utf8EncodeChar c).flatMap
      (fun b => [bslash, 'x', lowerhex (b.toNat / 16), lowerhex (b.toNat % 16)])
  else if c = dquote ∨ c = bslash then [bslash, c]
  else [c]

/-- The function `quote` of package `time`. -/
def timeQuote (s : GoString) : GoString :=
  [dquote] ++ s.flatMap quoteChar ++ [dquote]

/-- The function `strconv.Quote` on strings of printable ASCII characters
other than the double quote and the backslash, which it copies unchanged;
`ParseFloat` is reached only for strings of digits and dots. -/
def strconvQuote (s : GoString) : GoString :=
  [dquote] ++ s ++ [dquote]

/-- The method `Error()` of the three error types. -/
def GoError.Error : GoError → GoString
  | numError fn num err =>
      "strconv.".toList ++ fn ++ ": parsing ".toList ++ strconvQuote num ++ ": ".toList ++ err
  | parseError layout value layoutElem valueElem message =>
      if message = [] then
        "parsing time ".toList ++ timeQuote value ++ " as ".toList ++ timeQuote layout
          ++ ": cannot parse ".toList ++ timeQuote valueElem ++ " as ".toList
          ++ timeQuote layoutElem
      else
        "parsing time ".toList ++ timeQuote value ++ message
  | errorString s => s

/-! ## strconv.ParseFloat -/

/-- The value of a decimal digit. -/
def digitVal (c : Char) : Nat :=
  c.toNat - 48

/-- The number written by a string of decimal digits, continuing from `acc`. -/
def decimalValue : Nat → GoString → Nat
  | acc, [] => acc
  | acc, c :: cs => decimalValue (acc * 10 + digitVal c) cs

/-- The call `strconv.ParseFloat(s, 64)` for a string of digits and dots: the
string must hold at least one digit and at most one dot; the result is the
nearest `float64`, and a value that rounds to infinity is a range error. -/
def strconvParseFloat (s : GoString) : Except GoError Float64 :=
  let intPart := s.takeWhile Char.isDigit
  let rest := s.dropWhile Char.isDigit
  let fracPart := (rest.drop 1).takeWhile Char.isDigit
  let tail := if rest.head? = some '.' then (rest.drop 1).dropWhile Char.isDigit else rest
  let digits := if rest.head? = some '.' then intPart ++ fracPart else intPart
  if digits = [] ∨ tail ≠ [] then
    Except.error (GoError.numError "ParseFloat".toList s "invalid syntax".toList)
  else
    match Float64.ofRat (decimalValue 0 digits) (10 ^ (digits.length - intPart.length)) with
    | Float64.inf => Except.error (GoError.numError "ParseFloat".toList s "value out of range".toList)
    | Float64.fin u => Except.ok (Float64.fin u)

/-! ## time.ParseDuration -/

/-- The function `leadingInt` of package `time`: the leading digits as a number,
and the rest; `none` when the number exceeds `2^63`. -/
def leadingInt : Nat → GoString → Option (Nat × GoString)
  | x, [] => some (x, [])
  | x, c :: cs =>
      if c.isDigit then
        if x > 2 ^ 63 / 10 then Option.none
        else if x * 10 + digitVal c > 2 ^ 63 then Option.none
        else leadingInt (x * 10 + digitVal c) cs
      else some (x, c :: cs)

/-- The function `leadingFraction` of package `time`: the leading digits as a
number and the power of ten they are scaled by; digits past the capacity of
the number are skipped. -/
def leadingFraction : Nat → Float64 → Bool → GoString → Nat × Float64 × GoString
  | x, scale, _, [] => (x, scale, [])
  | x, scale, overflow, c :: cs =>
      if c.isDigit then
        if overflow then leadingFraction x scale true cs
        else if x > (2 ^ 63 - 1) / 10 then leadingFraction x scale true cs
        else if x * 10 + digitVal c > 2 ^ 63 then leadingFraction x scale true cs
        else leadingFraction (x * 10 + digitVal c) (Float64.mul scale (Float64.ofNat 10)) false cs
      else (x, scale, c :: cs)

/-- The table `unitMap` of package `time`, in nanoseconds. -/
def unitMap (u : GoString) : Option Nat :=
  if u = "ns".toList then some 1
  else if u = "us".toList then some 1000
  else if u = "µs".toList then some 1000
  else if u = "μs".toList then some 1000
  else if u = "ms".toList then some 1000000
  else if u = "s".toList then some 1000000000
  else if u = "m".toList then some 60000000000
  else if u = "h".toList then some 3600000000000
  else Option.none

/-- Whether a character ends a unit name: a dot or a digit. -/
def endsUnit (c : Char) : Bool :=
  c == '.' || c.isDigit

/-- The error `time: invalid duration` for the input `orig`. -/
def invalidDuration (orig : GoString) : GoError :=
  GoError.errorString ("time: invalid duration ".toList ++ timeQuote orig)

/-- The end of one turn of the loop of `time.ParseDuration`: the number `v`
and the fraction `f / scale` have been read and `s2` starts with the unit.  The
result is the new value of `d` and the rest of the string. -/
def durationUnit (orig : GoString) (d v f : Nat) (scale : Float64) (s2 : GoString) :
    Except GoError (Nat × GoString) :=
  let u := s2.takeWhile (fun c => !endsUnit c)
  let s3 := s2.dropWhile (fun c => !endsUnit c)
  if u = [] then
    Except.error (GoError.errorString
      ("time: missing unit in duration ".toList ++ timeQuote orig))
  else
    match unitMap u with
    | Option.none =>
        Except.error (GoError.errorString
          ("time: unknown unit ".toList ++ timeQuote u
            ++ " in duration ".toList ++ timeQuote orig))
    | some unit =>
        if v > 2 ^ 63 / unit then Except.error (invalidDuration orig)
        else
          let frac :=
            ((Float64.mul (Float64.ofNat f)
              (Float64.div (Float64.ofNat unit) scale)).trunc).getD 0
          let v1 := if f > 0 then (v * unit + frac) % 2 ^ 64 else v * unit
          let d1 := (d + v1) % 2 ^ 64
          if f > 0 ∧ v1 > 2 ^ 63 then Except.error (invalidDuration orig)
          else if d1 > 2 ^ 63 then Except.error (invalidDuration orig)
          else Except.ok (d1, s3)

/-- One turn of the loop of `time.ParseDuration` on the non-empty rest `s`: it
reads a number, an optional fraction and a unit. -/
def durationTurn (orig : GoString) (d : Nat) (s : GoString) : Except GoError (Nat × GoString) :=
  if !(s.head? == some '.' || (s.head?.map Char.isDigit).getD false) then
    Except.error (invalidDuration orig)
  else
    match leadingInt 0 s with
    | Option.none => Except.error (invalidDuration orig)
    | some (v, s1) =>
        let pre := s.length != s1.length
        let hasDot := s1.head? == some '.'
        let fr := if hasDot then leadingFraction 0 (Float64.ofNat 1) false (s1.drop 1)
                  else (0, Float64.ofNat 1, s1)
        let post := hasDot && (s1.drop 1).length != fr.2.2.length
        if !pre && !post then Except.error (invalidDuration orig)
        else durationUnit orig d v fr.1 fr.2.1 fr.2.2

/-- The loop `for s != ""` of `time.ParseDuration`, which reads one
number-and-unit group per turn and adds it to `d`.  Each turn consumes at
least one character, so `fuel` above the length of `s` is never exhausted. -/
def parseDurationLoop (orig : GoString) : Nat → Nat → GoString → Except GoError Nat
  | 0, _, _ => Except.error (invalidDuration orig)
  | fuel + 1, d, s =>
      if s = [] then Except.ok d
      else
        match durationTurn orig d s with
        | Except.error e => Except.error e
        | Except.ok (d1, s3) => parseDurationLoop orig fuel d1 s3

/-- The function `time.ParseDuration`. -/
def timeParseDuration (orig : GoString) : Except GoError Int :=
  let neg := orig.head? == some '-'
  let s := if orig.head? == some '-' || orig.head? == some '+' then orig.drop 1 else orig
  if s = "0".toList then Except.ok 0
  else if s = [] then Except.error (invalidDuration orig)
  else
    match parseDurationLoop orig (s.length + 1) 0 s with
    | Except.error e => Except.error e
    | Except.ok d =>
        if neg then Except.ok (wrapInt64 (-(wrapInt64 d)))
        else if d > 2 ^ 63 - 1 then Except.error (invalidDuration orig)
        else Except.ok d

/-! ## The runtime -/

/-- What the embedding takes from outside the source: the function
`time.Parse` for the layout `time.RFC3339`, which gives a time or the fields
`LayoutElem`, `ValueElem`, `Message` of its `ParseError`; and the value of the
conversion `int64(f)` for a float outside the range of `int64`, which Go leaves
to the implementation. -/
structure Runtime where
  timeParseRFC3339 : GoString → Except (GoString × GoString × GoString) Int
  int64OutOfRange : Float64 → Int

/-- The layout `time.RFC3339`. -/
def RFC3339 : GoString := "2006-01-02T15:04:05Z07:00".toList

/-- The call `time.Parse(time.RFC3339, s)`; its errors record the layout and
the value. -/
def timeParse (rt : Runtime) (s : GoString) : Except GoError Int :=
  match rt.timeParseRFC3339 s with
  | Except.ok t => Except.ok t
  | Except.error (le, ve, msg) => Except.error (GoError.parseError RFC3339 s le ve msg)

/-- The conversion `int64(f)`. -/
def toInt64 (rt : Runtime) (f : Float64) : Int :=
  match f.trunc with
  | some n => if n < 2 ^ 63 then (n : Int) else rt.int64OutOfRange f
  | Option.none => rt.int64OutOfRange f

/-- The float expression `f*1000*1000*1000`. -/
def secondsToNanos (f : Float64) : Float64 :=
  Float64.mul (Float64.mul (Float64.mul f (Float64.ofNat 1000)) (Float64.ofNat 1000))
    (Float64.ofNat 1000)

/-- Source: `parsePromTime` (proxy.go). -/
def parsePromTime (rt : Runtime) (s : GoString) : Except GoError Int :=
  if isDigit s then
    match strconvParseFloat s with
    | Except.error err => Except.error err
    | Except.ok f => Except.ok (toInt64 rt (secondsToNanos f))
  else
    match timeParse rt s with
    | Except.error err => Except.error err
    | Except.ok t => Except.ok t

/-- Source: `parsePromDuration` (proxy.go). -/
def parsePromDuration (rt : Runtime) (s : GoString) : Except GoError Int :=
  if isDigit s then
    match strconvParseFloat s with
    | Except.error err => Except.error err
    | Except.ok f => Except.ok (toInt64 rt (secondsToNanos f))
  else
    match timeParseDuration s with
    | Except.error err => Except.error err
    | Except.ok d => Except.ok d

/-! ## Requests and outcomes -/

/-- An inbound request: `req.URL.Path` and the pairs of `req.URL.Query()`. -/
structure Request where
  Path : GoString
  Query : List (GoString × GoString)
deriving DecidableEq, Repr

/-- The call `req.URL.Query().Get(key)`: the first value of the key, or the
empty string. -/
def Request.queryGet (req : Request) (key : GoString) : GoString :=
  match req.Query.find? (fun kv => kv.1 == key) with
  | some kv => kv.2
  | Option.none => []

/-- Source: `labelValuesResponse`. -/
structure labelValuesResponse where
  Status : GoString
  Data : List GoString
deriving DecidableEq, Repr

/-- What a handler does with a request. -/
inductive Outcome where
  /-- The proxy writes the status and the body itself; no backend is contacted. -/
  | respond (status : Nat) (body : GoString) : Outcome
  /-- The request is handed to a reverse proxy for the datasource at this
  position of `Datasources`, and to that datasource only. -/
  | forward (target : Nat × DatasourceConfig) : Outcome
  /-- The proxy writes the status and a JSON-encoded `labelValuesResponse`. -/
  | respondJSON (status : Nat) (lvr : labelValuesResponse) : Outcome
  /-- The handler does not return: `wg.Wait()` blocks forever. -/
  | blocked : Outcome
deriving DecidableEq, Repr

/-- The body of the reply when no datasource is selected. -/
def notFoundBody : GoString := "Datasource for the query is not found\n".toList

/-- Source: `Proxy.handleQueryRange` (proxy.go). -/
def handleQueryRange (rt : Runtime) (clock : Nat → Int) (cfg : Config) (req : Request) :
    Outcome :=
  match parsePromDuration rt (req.queryGet "step".toList) with
  | Except.error err => Outcome.respond 400 (err.Error ++ "\n".toList)
  | Except.ok step =>
      match parsePromTime rt (req.queryGet "start".toList) with
      | Except.error err => Outcome.respond 400 (err.Error ++ "\n".toList)
      | Except.ok start =>
          match parsePromTime rt (req.queryGet "end".toList) with
          | Except.error err => Outcome.respond 400 (err.Error ++ "\n".toList)
          | Except.ok end_ =>
              match selectRange clock start end_ step cfg with
              | Option.none => Outcome.respond 400 notFoundBody
              | some targetDs => Outcome.forward targetDs

/-- Source: `Proxy.handleQuery` (proxy.go). -/
def handleQuery (rt : Runtime) (clock : Nat → Int) (cfg : Config) (req : Request) : Outcome :=
  match parsePromTime rt (req.queryGet "time".toList) with
  | Except.error err => Outcome.respond 400 (err.Error ++ "\n".toList)
  | Except.ok t =>
      match selectInstant clock t cfg with
      | Option.none => Outcome.respond 400 notFoundBody
      | some targetDs => Outcome.forward targetDs

/-! ## Label values -/

/-- What one backend goroutine of `handleLabelNameValues` observes. -/
inductive BackendResult where
  /-- The call `http.DefaultClient.Do(r)` returned an error: the transport
  failed or the 30 second timeout expired. -/
  | transportError : BackendResult
  /-- A response arrived with this status code; `lvr` is the variable after
  `d.Decode(&lvr)`, and `decoded` tells whether `Decode` returned no error. -/
  | response (statusCode : Nat) (decoded : Bool) (lvr : labelValuesResponse) : BackendResult
deriving DecidableEq, Repr

/-- The network: what a `GET` of a URL yields. -/
abbrev Network := URL → BackendResult

/-- The URL a backend goroutine requests (proxy.go, lines 143-144). -/
def backendURL (ds : DatasourceConfig) (req : Request) : URL :=
  { ds.URL with Path := singleJoiningSlash ds.URL.Path req.Path }

/-- The body of the goroutine (proxy.go, lines 142-172): the labels it inserts
into `labelsMap`, in order, and whether it reaches `wg.Done()`.  A transport
error returns before `defer wg.Done()` is executed; the status code and the
status field are logged and nothing else. -/
def backendTask (r : BackendResult) : List GoString × Bool :=
  match r with
  | BackendResult.transportError => ([], false)
  | BackendResult.response _ _ lvr => (lvr.Data, true)

/-- The statement `labelsMap[l] = struct{}{}`, the map being the list of its
keys. -/
def mapInsert (labelsMap : List GoString) (l : GoString) : List GoString :=
  if l ∈ labelsMap then labelsMap else labelsMap ++ [l]

/-- The map after a sequence of insertions into the empty map. -/
def labelsMapOf (inserts : List GoString) : List GoString :=
  inserts.foldl mapInsert []

/-- The comparison `labels[i] < labels[j]` of Go strings.  Go compares byte
by byte; on UTF-8 text, which is what JSON decoding yields, that is the
lexicographic order by characters used here. -/
def stringLess (a b : GoString) : Prop := a < b

instance : DecidableRel stringLess := by
  intro a b; unfold stringLess; infer_instance

/-- The call `sort.Slice(labels, less)`. -/
def sortSlice (labels : List GoString) : List GoString :=
  labels.insertionSort stringLess

/-- The reply built from the slice `labels` (proxy.go, lines 181-190). -/
def labelsReply (labels : List GoString) : Outcome :=
  Outcome.respondJSON 200 { Status := "success".toList, Data := sortSlice labels }

/-- The handler after the goroutines have observed `results`: it waits until
the counter of the wait group, one per goroutine started, is back at zero.
The goroutines run here in the order of `results` and the map is ranged over
in insertion order. -/
def labelNameValuesOutcome (results : List BackendResult) : Outcome :=
  let tasks := results.map backendTask
  let wgCounter := results.length - (tasks.filter (fun t => t.2)).length
  if wgCounter ≠ 0 then Outcome.blocked
  else labelsReply (labelsMapOf (tasks.flatMap (fun t => t.1)))

/-- Source: `Proxy.handleLabelNameValues` (proxy.go). -/
def handleLabelNameValues (net : Network) (cfg : Config) (req : Request) : Outcome :=
  labelNameValuesOutcome (cfg.Datasources.map (fun ds => net (backendURL ds req)))

/-! ## Routing -/

/-- The branch `ServeHTTP` takes. -/
inductive Route where
  | queryRange : Route
  | query : Route
  | labelValues : Route
  | notFound : Route
deriving DecidableEq, Repr

/-- The path of range queries. -/
def queryRangePath : GoString := "/api/v1/query_range".toList

/-- The path of instant queries. -/
def queryPath : GoString := "/api/v1/query".toList

/-- The conditions of `Proxy.ServeHTTP` (proxy.go, lines 33-41). -/
def route (path : GoString) : Route :=
  if path = queryRangePath then Route.queryRange
  else if path = queryPath then Route.query
  else if labelValuesPathRe.MatchString path then Route.labelValues
  else Route.notFound

/-- Source: `Proxy.ServeHTTP` (proxy.go); `http.NotFound` replies 404. -/
def ServeHTTP (rt : Runtime) (net : Network) (clock : Nat → Int) (cfg : Config)
    (req : Request) : Outcome :=
  match route req.Path with
  | Route.queryRange => handleQueryRange rt clock cfg req
  | Route.query => handleQuery rt clock cfg req
  | Route.labelValues => handleLabelNameValues net cfg req
  | Route.notFound => Outcome.respond 404 "404 page not found\n".toList

/-! ## Notions of the specification -/

/-- The string `a` with one trailing slash removed, if present. -/
def dropTrailingSlash (a : GoString) : GoString :=
  if hasSuffixSlash a then a.dropLast else a

/-- The string `b` with one leading slash removed, if present. -/
def dropLeadingSlash (b : GoString) : GoString :=
  if hasPrefixSlash b then b.drop 1 else b

/-- A datasource is eligible for the instant `t`: it has no retention, or `t`
is not before `now - Retention`. -/
def eligibleInstant (now t : Int) (ds : DatasourceConfig) : Prop :=
  ds.Retention = 0 ∨ ¬ t < now - ds.Retention

instance (now t : Int) (ds : DatasourceConfig) : Decidable (eligibleInstant now t ds) := by
  unfold eligibleInstant; infer_instance

/-- A datasource is usable for a range query: it has no retention or neither
`start` nor `end` is before `now - Retention`, and its resolution is at most
`step`. -/
def usableRange (now start end_ step : Int) (ds : DatasourceConfig) : Prop :=
  (ds.Retention = 0 ∨ (¬ start < now - ds.Retention ∧ ¬ end_ < now - ds.Retention))
    ∧ ds.Resolution ≤ step

instance (now start end_ step : Int) (ds : DatasourceConfig) :
    Decidable (usableRange now start end_ step ds) := by
  unfold usableRange; infer_instance

/-- The retention is an `int64` whose negation is an `int64` too, so that
`ds.Retention * -1` does not wrap. -/
def retentionInRange (ds : DatasourceConfig) : Prop :=
  -(2 : Int) ^ 63 < ds.Retention ∧ ds.Retention < 2 ^ 63

instance (ds : DatasourceConfig) : Decidable (retentionInRange ds) := by
  unfold retentionInRange; infer_instance

/-- The difference `step - ds.Resolution` is an `int64`, so that the
subtraction does not wrap; it is whenever both are non-negative `int64`s. -/
def gapInRange (step : Int) (ds : DatasourceConfig) : Prop :=
  isInt64 (step - ds.Resolution)

instance (step : Int) (ds : DatasourceConfig) : Decidable (gapInRange step ds) := by
  unfold gapInRange; infer_instance

/-- One turn of a selection loop in general: an element that passes `ok` at
its position replaces the target when there is none or when its `key` is
smaller. -/
def argStep {α : Type} (ok : Nat → α → Bool) (key : α → Int) (tgt : Option (Nat × α)) (i : Nat)
    (a : α) : Option (Nat × α) :=
  if ok i a then
    match tgt with
    | Option.none => some (i, a)
    | some (j, b) => if key a < key b then some (i, a) else some (j, b)
  else tgt

/-- A selection loop in general: among the elements that pass `ok`, keep the
first one of least `key`. -/
def argLoop {α : Type} (ok : Nat → α → Bool) (key : α → Int) :
    Option (Nat × α) → Nat → List α → Option (Nat × α)
  | tgt, _, [] => tgt
  | tgt, i, a :: rest => argLoop ok key (argStep ok key tgt i a) (i + 1) rest

/-- What holds of the target of a selection loop once the list `l` has been
scanned. -/
def ArgInv {α : Type} (ok : Nat → α → Bool) (key : α → Int) (l : List α) :
    Option (Nat × α) → Prop
  | Option.none => ∀ j d, l[j]? = some d → ok j d = false
  | some (i, a) => l[i]? = some a ∧ ok i a = true ∧
      ∀ j d, l[j]? = some d → ok j d = true → key a ≤ key d ∧ (j < i → key a < key d)

/-- The test of `handleQuery` that lets a datasource compete. -/
def instantOk (now t : Int) (ds : DatasourceConfig) : Bool :=
  !decide (ds.Retention ≠ 0 ∧ t < now + wrapInt64 (ds.Retention * -1))

/-- The tests of `handleQueryRange` that let a datasource compete. -/
def rangeOk (now start end_ step : Int) (ds : DatasourceConfig) : Bool :=
  !decide (ds.Retention ≠ 0 ∧ (start < now + wrapInt64 (ds.Retention * -1)
      ∨ end_ < now + wrapInt64 (ds.Retention * -1)))
    && !decide (wrapInt64 (step - ds.Resolution) < 0)

/-- The two backends of the examples. -/
def testConfigLabels : Config :=
  { Datasources :=
      [ { URL := ⟨"http".toList, "ds1".toList, []⟩, Resolution := 60000000000,
          Retention := 0, StartTime := 0 },
        { URL := ⟨"http".toList, "ds2".toList, []⟩, Resolution := 60000000000,
          Retention := 0, StartTime := 0 } ] }

/-- A label-values request. -/
def testRequestLabels : Request :=
  { Path := "/api/v1/label/foo/values".toList, Query := [] }

/-- The network of `TestProxyLabelNameValues`: both backends answer 200 with
status `success`, the first with `foo` and `a`, the second with `foo` and `b`. -/
def testNetworkBoth : Network := fun u =>
  if u.Host = "ds1".toList then
    BackendResult.response 200 true
      { Status := "success".toList, Data := ["foo".toList, "a".toList] }
  else
    BackendResult.response 200 true
      { Status := "success".toList, Data := ["foo".toList, "b".toList] }

/-- A network in which the call to the first backend fails at transport level
and the second backend answers normally. -/
def testNetworkTransportError : Network := fun u =>
  if u.Host = "ds1".toList then BackendResult.transportError
  else
    BackendResult.response 200 true
      { Status := "success".toList, Data := ["foo".toList, "b".toList] }

/-- A network in which the first backend answers HTTP 500 with status `error`
and a label `x` of its own, and the second backend answers normally. -/
def testNetworkErrorStatus : Network := fun u =>
  if u.Host = "ds1".toList then
    BackendResult.response 500 true { Status := "error".toList, Data := ["x".toList] }
  else
    BackendResult.response 200 true
      { Status := "success".toList, Data := ["foo".toList, "b".toList] }

/-- A runtime for the examples, which use numeric timestamps only: its
`time.Parse` rejects every string, and `int64` of a float out of range is the
least `int64`, as on amd64. -/
def testRuntime : Runtime :=
  { timeParseRFC3339 := fun s => Except.error ("2006".toList, s, []),
    int64OutOfRange := fun _ => -9223372036854775808 }

/-- An instant query at the epoch. -/
def testRequestInstant : Request :=
  { Path := "/api/v1/query".toList, Query := [("time".toList, "0".toList)] }

/-- A range query over the hour after the epoch, at a step of two minutes. -/
def testRequestRange : Request :=
  { Path := "/api/v1/query_range".toList,
    Query := [("start".toList, "0".toList), ("end".toList, "3600".toList),
              ("step".toList, "2m".toList)] }

/-- Datasources that all retain one hour only, at resolutions of one second and
one hour. -/
def testConfigShort : Config :=
  { Datasources :=
      [ { URL := ⟨"http".toList, "ds1".toList, []⟩, Resolution := 1000000000,
          Retention := 3600000000000, StartTime := 0 },
        { URL := ⟨"http".toList, "ds2".toList, []⟩, Resolution := 3600000000000,
          Retention := 3600000000000, StartTime := 0 } ] }

/-- A string that `time.quote` copies unchanged between the quotes. -/
def plainString (s : GoString) : Prop :=
  ∀ c ∈ s, quoteChar c = [c]

/-- An error text carries the raw string `raw`: it holds the quoted form of
`raw`, and `raw` itself when no character of it needs an escape. -/
def carriesRaw (raw text : GoString) : Prop :=
  timeQuote raw <:+: text ∧ (plainString raw → raw <:+: text)

/-- Every error a parse may return carries the original string. -/
def ErrorsCarry {α : Type} (orig : GoString) (r : Except GoError α) : Prop :=
  ∀ e, r = Except.error e → carriesRaw orig e.Error

/-- A range query whose `step` does not parse. -/
def testRequestBadStep : Request :=
  { Path := "/api/v1/query_range".toList,
    Query := [("start".toList, "0".toList), ("end".toList, "3600".toList),
              ("step".toList, "abc".toList)] }

/-- A string of decimal digits: every character is a digit. -/
def allDigits (s : GoString) : Prop :=
  ∀ c ∈ s, c.isDigit = true ∧ '0' ≤ c ∧ c ≤ '9'

/-- The datasources of `TestProxyQueryPicksLowestResolution`. -/
def testConfigInstant : Config :=
  { Datasources :=
      [ { URL := ⟨"http".toList, "ds1".toList, []⟩, Resolution := 1000000000,
          Retention := 3600000000000, StartTime := 0 },
        { URL := ⟨"http".toList, "ds2".toList, []⟩, Resolution := 60000000000,
          Retention := 0, StartTime := 0 },
        { URL := ⟨"http".toList, "ds3".toList, []⟩, Resolution := 3600000000000,
          Retention := 0, StartTime := 0 } ] }

/-- The datasources of `TestProxyQueryRangeBasedOnStep`. -/
def testConfigRange : Config :=
  { Datasources :=
      [ { URL := ⟨"http".toList, "ds1".toList, []⟩, Resolution := 1000000000,
          Retention := 0, StartTime := 0 },
        { URL := ⟨"http".toList, "ds2".toList, []⟩, Resolution := 60000000000,
          Retention := 0, StartTime := 0 },
        { URL := ⟨"http".toList, "ds3".toList, []⟩, Resolution := 600000000000,
          Retention := 0, StartTime := 0 } ] }

/-- Two datasources, the finer of which has the least `int64` as retention. -/
def testConfigLeastRetention : Config :=
  { Datasources :=
      [ { URL := ⟨"http".toList, "ds1".toList, []⟩, Resolution := 1000000000,
          Retention := -9223372036854775808, StartTime := 0 },
        { URL := ⟨"http".toList, "ds2".toList, []⟩, Resolution := 60000000000,
          Retention := 0, StartTime := 0 } ] }

/-- A range query over the hour after the epoch whose step is the duration
literal `-9223372036854775807ns`. -/
def testRequestWrapStep : Request :=
  { Path := "/api/v1/query_range".toList,
    Query := [("start".toList, "0".toList), ("end".toList, "3600".toList),
              ("step".toList, "-9223372036854775807ns".toList)] }

/-- A range query whose step `5µ` names no unit. -/
def testRequestMicro : Request :=
  { Path := "/api/v1/query_range".toList,
    Query := [("start".toList, "0".toList), ("end".toList, "3600".toList),
              ("step".toList, "5µ".toList)] }

/-- The text of the error of `time.ParseDuration` for the string `5µ`. -/
def microErrorText : GoString :=
  "time: unknown unit ".toList
    ++ [dquote, bslash, 'x', 'c', '2', bslash, 'x', 'b', '5', dquote]
    ++ " in duration ".toList
    ++ [dquote, '5', bslash, 'x', 'c', '2', bslash, 'x', 'b', '5', dquote]

/-- One datasource, whose retention is the least `int64`. -/
def testConfigOnlyLeast : Config :=
  { Datasources :=
      [ { URL := ⟨"http".toList, "ds1".toList, []⟩, Resolution := 1000000000,
          Retention := -9223372036854775808, StartTime := 0 } ] }

/-- One group of a duration literal: a whole number in decimal digits,
followed by the name of a unit. -/
structure DurationGroup where
  digits : GoString
  unit : GoString
deriving DecidableEq, Repr

/-- The text of the duration literal made of the groups `gs`, such as `1h30m`. -/
def literalText (gs : List DurationGroup) : GoString :=
  gs.flatMap (fun g => g.digits ++ g.unit)

/-- The nanoseconds a duration literal denotes: the sum over its groups of the
number times the unit. -/
def literalNanos (gs : List DurationGroup) : Nat :=
  (gs.map (fun g => decimalValue 0 g.digits * (unitMap g.unit).getD 0)).sum

/-- A well-formed group: at least one digit, digits only, and one of the unit
names `ns`, `us`, `µs`, `μs`, `ms`, `s`, `m`, `h`. -/
def WholeGroup (g : DurationGroup) : Prop :=
  g.digits ≠ [] ∧ allDigits g.digits ∧ unitMap g.unit ≠ Option.none

/-- A unit literal of whole numbers: one or more well-formed groups. -/
def WholeLiteral (gs : List DurationGroup) : Prop :=
  gs ≠ [] ∧ ∀ g ∈ gs, WholeGroup g

instance (s : GoString) : Decidable (allDigits s) := by
  unfold allDigits
  infer_instance

instance (g : DurationGroup) : Decidable (WholeGroup g) := by
  unfold WholeGroup
  infer_instance

instance (gs : List DurationGroup) : Decidable (WholeLiteral gs) := by
  unfold WholeLiteral
  infer_instance

/-- The literal `1h30m`. -/
def testLiteral : List DurationGroup :=
  [⟨"1".toList, "h".toList⟩, ⟨"30".toList, "m".toList⟩]

/-! ## Theorems -/

/-! ### Joining paths -/

theorem dropTrailingSlash_append (a : GoString) (h : hasSuffixSlash a = true) :
    dropTrailingSlash a ++ "/".toList = a := by
  unfold dropTrailingSlash
  rw [if_pos h]
  unfold hasSuffixSlash at h
  have h1 : a.getLast? = some '/' := by simpa using h
  exact List.dropLast_append_getLast? '/' (by simp [h1])

theorem dropLeadingSlash_cons (b : GoString) (h : hasPrefixSlash b = true) :
    "/".toList ++ dropLeadingSlash b = b := by
  unfold dropLeadingSlash
  rw [if_pos h]
  unfold hasPrefixSlash at h
  cases b with
  | nil => simp at h
  | cons c cs =>
    have : c = '/' := by simpa using h
    subst this
    rfl

/-- C10. `singleJoiningSlash a b` is `a` without one trailing slash, then a
slash, then `b` without one leading slash; hence, for a backend whose base
path is empty or `/`, the path requested for an inbound path `b` that starts
with a slash is `b` itself. -/
theorem singleJoiningSlash_spec (a b : GoString) :
    singleJoiningSlash a b = dropTrailingSlash a ++ "/".toList ++ dropLeadingSlash b
    ∧ (hasPrefixSlash b = true →
        singleJoiningSlash [] b = b ∧ singleJoiningSlash "/".toList b = b
        ∧ ∀ (ds : DatasourceConfig) (req : Request), req.Path = b →
            (ds.URL.Path = [] ∨ ds.URL.Path = "/".toList) → (backendURL ds req).Path = b) := by
  have main : ∀ a b : GoString,
      singleJoiningSlash a b = dropTrailingSlash a ++ "/".toList ++ dropLeadingSlash b := by
    intro a b
    unfold singleJoiningSlash
    cases ha : hasSuffixSlash a <;> cases hb : hasPrefixSlash b
    · simp [dropTrailingSlash, dropLeadingSlash, ha, hb]
    · have h2 := dropLeadingSlash_cons b hb
      simp only [Bool.false_and, Bool.not_false, Bool.not_true, Bool.and_false,
        Bool.false_eq_true, if_false]
      rw [List.append_assoc, h2]
      simp [dropTrailingSlash, ha]
    · have h1 := dropTrailingSlash_append a ha
      simp only [Bool.true_and, Bool.not_false, Bool.not_true, Bool.and_true, Bool.false_and,
        Bool.false_eq_true, if_false]
      rw [h1]
      simp [dropLeadingSlash, hb]
    · have h1 := dropTrailingSlash_append a ha
      simp only [Bool.and_self, if_true]
      rw [h1]
      simp [dropLeadingSlash, hb]
  refine ⟨main a b, fun hb => ?_⟩
  have e1 : singleJoiningSlash [] b = b := by
    rw [main]
    have := dropLeadingSlash_cons b hb
    simpa [dropTrailingSlash, hasSuffixSlash] using this
  have e2 : singleJoiningSlash "/".toList b = b := by
    rw [main]
    have := dropLeadingSlash_cons b hb
    have h3 : dropTrailingSlash "/".toList = [] := by decide
    rw [h3]
    simpa using this
  refine ⟨e1, e2, ?_⟩
  intro ds req hreq hbase
  unfold backendURL
  simp only
  rw [hreq]
  rcases hbase with h | h <;> rw [h]
  · exact e1
  · exact e2

/-- Witness of `singleJoiningSlash_spec`. -/
theorem singleJoiningSlash_spec_witness :
    hasPrefixSlash "/api/v1/label/foo/values".toList = true
    ∧ singleJoiningSlash [] "/api/v1/label/foo/values".toList = "/api/v1/label/foo/values".toList :=
  ⟨by decide,
    ((singleJoiningSlash_spec [] "/api/v1/label/foo/values".toList).2 (by decide)).1⟩

/-! ### Selection -/

theorem wrapInt64_of_isInt64 (x : Int) (h : isInt64 x) : wrapInt64 x = x := by
  unfold isInt64 at h
  unfold wrapInt64
  norm_num at h ⊢
  omega

theorem wrapInt64_neg_retention (ds : DatasourceConfig) (h : retentionInRange ds) :
    wrapInt64 (ds.Retention * -1) = -ds.Retention := by
  have e : ds.Retention * -1 = -ds.Retention := by ring
  rw [e]
  apply wrapInt64_of_isInt64
  unfold retentionInRange at h
  unfold isInt64
  constructor <;> omega

theorem argInv_step {α : Type} (ok : Nat → α → Bool) (key : α → Int) (pre : List α) (a : α)
    (tgt : Option (Nat × α)) (h : ArgInv ok key pre tgt) :
    ArgInv ok key (pre ++ [a]) (argStep ok key tgt pre.length a) := by
  unfold argStep
  have look : ∀ j d, (pre ++ [a])[j]? = some d →
      (j < pre.length ∧ pre[j]? = some d) ∨ (j = pre.length ∧ d = a) := by
    intro j d hj
    rcases Nat.lt_or_ge j pre.length with hlt | hge
    · left
      rw [List.getElem?_append_left hlt] at hj
      exact ⟨hlt, hj⟩
    · right
      rw [List.getElem?_append_right hge] at hj
      rcases Nat.eq_zero_or_pos (j - pre.length) with h0 | hpos
      · rw [h0] at hj
        simp at hj
        exact ⟨by omega, hj.symm⟩
      · have : ([a] : List α)[j - pre.length]? = Option.none := by
          apply List.getElem?_eq_none
          simp
          omega
        rw [this] at hj
        cases hj
  cases hok : ok pre.length a
  · simp only [Bool.false_eq_true, if_false]
    cases tgt with
    | none =>
      intro j d hj
      rcases look j d hj with ⟨_, hj2⟩ | ⟨hjl, hd⟩
      · exact h j d hj2
      · rw [hjl, hd]; exact hok
    | some p =>
      obtain ⟨i, b⟩ := p
      obtain ⟨h1, h2, h3⟩ := h
      have hi : i < pre.length := by
        by_contra hc
        rw [List.getElem?_eq_none (by omega)] at h1
        cases h1
      refine ⟨by rw [List.getElem?_append_left hi]; exact h1, h2, ?_⟩
      intro j d hj hd
      rcases look j d hj with ⟨_, hj2⟩ | ⟨hjl, hda⟩
      · exact h3 j d hj2 hd
      · rw [hjl, hda, hok] at hd; cases hd
  · simp only [if_true]
    cases tgt with
    | none =>
      refine ⟨by simp, hok, ?_⟩
      intro j d hj hd
      rcases look j d hj with ⟨_, hj2⟩ | ⟨hjl, hda⟩
      · have := h j d hj2
        rw [this] at hd; cases hd
      · rw [hda]
        exact ⟨le_refl _, fun hlt => absurd hlt (by omega)⟩
    | some p =>
      obtain ⟨i, b⟩ := p
      obtain ⟨h1, h2, h3⟩ := h
      have hi : i < pre.length := by
        by_contra hc
        rw [List.getElem?_eq_none (by omega)] at h1
        cases h1
      by_cases hlt : key a < key b
      · simp only [hlt, if_true]
        refine ⟨by simp, hok, ?_⟩
        intro j d hj hd
        rcases look j d hj with ⟨_, hj2⟩ | ⟨hjl, hda⟩
        · have := (h3 j d hj2 hd).1
          exact ⟨by omega, fun _ => by omega⟩
        · rw [hda]
          exact ⟨le_refl _, fun hlt => absurd hlt (by omega)⟩
      · simp only [hlt, if_false]
        refine ⟨by rw [List.getElem?_append_left hi]; exact h1, h2, ?_⟩
        intro j d hj hd
        rcases look j d hj with ⟨_, hj2⟩ | ⟨hjl, hda⟩
        · exact h3 j d hj2 hd
        · rw [hda]
          exact ⟨by omega, fun hji => absurd hji (by omega)⟩

theorem argLoop_inv {α : Type} (ok : Nat → α → Bool) (key : α → Int) (rest : List α) :
    ∀ (pre : List α) (tgt : Option (Nat × α)), ArgInv ok key pre tgt →
      ArgInv ok key (pre ++ rest) (argLoop ok key tgt pre.length rest) := by
  induction rest with
  | nil => intro pre tgt h; simpa [argLoop] using h
  | cons a rest ih =>
    intro pre tgt h
    have hstep := argInv_step ok key pre a tgt h
    have := ih (pre ++ [a]) _ hstep
    simpa [argLoop] using this

theorem argLoop_spec {α : Type} (ok : Nat → α → Bool) (key : α → Int) (l : List α) :
    ArgInv ok key l (argLoop ok key Option.none 0 l) := by
  have h0 : ArgInv ok key ([] : List α) Option.none := by
    intro j d hd; simp at hd
  simpa using argLoop_inv ok key l [] Option.none h0

theorem queryLoopBody_eq_argStep (clock : Nat → Int) (t : Int) (tgt : DsPtr) (i : Nat)
    (ds : DatasourceConfig) :
    queryLoopBody clock t tgt i ds
      = argStep (fun j d => instantOk (clock j) t d) (fun ds => ds.Resolution) tgt i ds := by
  unfold queryLoopBody argStep instantOk
  dsimp only
  by_cases hc : ds.Retention ≠ 0 ∧ t < clock i + wrapInt64 (ds.Retention * -1)
  · rw [if_pos hc, decide_eq_true hc]
    rfl
  · rw [if_neg hc, decide_eq_false hc]
    simp only [Bool.not_false, if_true]
    cases tgt with
    | none => rfl
    | some p =>
      obtain ⟨j, b⟩ := p
      simp only [gt_iff_lt]

theorem queryLoop_eq_argLoop (clock : Nat → Int) (t : Int) (l : List DatasourceConfig) :
    ∀ (tgt : DsPtr) (i : Nat),
      queryLoop clock t tgt i l
        = argLoop (fun j d => instantOk (clock j) t d) (fun ds => ds.Resolution) tgt i l := by
  induction l with
  | nil => intro tgt i; rfl
  | cons ds rest ih =>
    intro tgt i
    simp only [queryLoop, argLoop]
    rw [ih, queryLoopBody_eq_argStep]

theorem queryRangeLoopBody_eq_argStep (clock : Nat → Int) (start end_ step : Int) (tgt : DsPtr)
    (i : Nat) (ds : DatasourceConfig) :
    queryRangeLoopBody clock start end_ step tgt i ds
      = argStep (fun j d => rangeOk (clock j) start end_ step d)
          (fun ds => wrapInt64 (step - ds.Resolution)) tgt i ds := by
  unfold queryRangeLoopBody argStep rangeOk
  dsimp only
  by_cases hc : ds.Retention ≠ 0 ∧ (start < clock i + wrapInt64 (ds.Retention * -1)
      ∨ end_ < clock i + wrapInt64 (ds.Retention * -1))
  · rw [if_pos hc, decide_eq_true hc]
    rfl
  · rw [if_neg hc, decide_eq_false hc]
    by_cases hg : wrapInt64 (step - ds.Resolution) < 0
    · rw [if_pos hg, decide_eq_true hg]
      rfl
    · rw [if_neg hg, decide_eq_false hg]
      simp only [Bool.not_false, Bool.and_self, if_true]
      cases tgt with
      | none => rfl
      | some p =>
        obtain ⟨j, b⟩ := p
        simp only

theorem queryRangeLoop_eq_argLoop (clock : Nat → Int) (start end_ step : Int)
    (l : List DatasourceConfig) :
    ∀ (tgt : DsPtr) (i : Nat),
      queryRangeLoop clock start end_ step tgt i l
        = argLoop (fun j d => rangeOk (clock j) start end_ step d)
            (fun ds => wrapInt64 (step - ds.Resolution)) tgt i l := by
  induction l with
  | nil => intro tgt i; rfl
  | cons ds rest ih =>
    intro tgt i
    simp only [queryRangeLoop, argLoop]
    rw [ih, queryRangeLoopBody_eq_argStep]

theorem instantOk_iff (now t : Int) (ds : DatasourceConfig) (h : retentionInRange ds) :
    instantOk now t ds = true ↔ eligibleInstant now t ds := by
  unfold instantOk eligibleInstant
  rw [wrapInt64_neg_retention ds h]
  simp only [Bool.not_eq_true', decide_eq_false_iff_not, not_and_or, not_not]
  have e : now + -ds.Retention = now - ds.Retention := by ring
  rw [e]

theorem rangeOk_iff (now start end_ step : Int) (ds : DatasourceConfig)
    (h : retentionInRange ds) (hg : gapInRange step ds) :
    rangeOk now start end_ step ds = true ↔ usableRange now start end_ step ds := by
  unfold rangeOk usableRange
  rw [wrapInt64_neg_retention ds h, wrapInt64_of_isInt64 _ hg]
  have e : now + -ds.Retention = now - ds.Retention := by ring
  rw [e]
  simp only [Bool.and_eq_true, Bool.not_eq_true', decide_eq_false_iff_not, not_and_or, not_not,
    not_or, not_lt]
  constructor
  · rintro ⟨h1, h2⟩
    exact ⟨h1, by omega⟩
  · rintro ⟨h1, h2⟩
    exact ⟨h1, by omega⟩

theorem selectInstant_inv (clock : Nat → Int) (t : Int) (cfg : Config) :
    ArgInv (fun j d => instantOk (clock j) t d) (fun ds => ds.Resolution) cfg.Datasources
      (selectInstant clock t cfg) := by
  have hinv := argLoop_spec (fun j d => instantOk (clock j) t d) (fun ds => ds.Resolution)
    cfg.Datasources
  rw [← queryLoop_eq_argLoop] at hinv
  exact hinv

theorem selectRange_inv (clock : Nat → Int) (start end_ step : Int) (cfg : Config) :
    ArgInv (fun j d => rangeOk (clock j) start end_ step d)
      (fun ds => wrapInt64 (step - ds.Resolution))
      cfg.Datasources (selectRange clock start end_ step cfg) := by
  have hinv := argLoop_spec (fun j d => rangeOk (clock j) start end_ step d)
    (fun ds => wrapInt64 (step - ds.Resolution)) cfg.Datasources
  rw [← queryRangeLoop_eq_argLoop] at hinv
  exact hinv

/-- C1, as amended.  Instant selection, for every timestamp `t`, every
sequence of clock readings and every datasource list whose retentions are
`int64` values other than the least one.  A datasource is eligible when it has
no retention or `t` is not before the reading of `time.Now()` taken in its own
iteration, less its retention; when the clock reads `now` throughout, that is
eligibility at `now`.  If some datasource is eligible, the loop of
`handleQuery` selects a datasource of the list that is eligible, whose
resolution is the least among the eligible ones, and before which no eligible
datasource of that resolution is listed. -/
theorem selectInstant_finest_eligible (clock : Nat → Int) (t : Int) (cfg : Config)
    (hret : ∀ ds ∈ cfg.Datasources, retentionInRange ds)
    (hex : ∃ j ds, cfg.Datasources[j]? = some ds ∧ eligibleInstant (clock j) t ds) :
    ∃ i sel, selectInstant clock t cfg = some (i, sel)
      ∧ cfg.Datasources[i]? = some sel
      ∧ eligibleInstant (clock i) t sel
      ∧ (∀ j ds, cfg.Datasources[j]? = some ds → eligibleInstant (clock j) t ds →
          sel.Resolution ≤ ds.Resolution)
      ∧ (∀ j ds, j < i → cfg.Datasources[j]? = some ds → eligibleInstant (clock j) t ds →
          sel.Resolution < ds.Resolution) := by
  have hinv := selectInstant_inv clock t cfg
  have hmem : ∀ j ds, cfg.Datasources[j]? = some ds → ds ∈ cfg.Datasources :=
    fun j ds hj => List.mem_iff_getElem?.2 ⟨j, hj⟩
  cases hsel : selectInstant clock t cfg with
  | none =>
    rw [hsel] at hinv
    obtain ⟨j, ds, hj, hel⟩ := hex
    have := hinv j ds hj
    simp only at this
    rw [(instantOk_iff (clock j) t ds (hret ds (hmem j ds hj))).2 hel] at this
    cases this
  | some p =>
    obtain ⟨i, sel⟩ := p
    rw [hsel] at hinv
    obtain ⟨h1, h2, h3⟩ := hinv
    refine ⟨i, sel, rfl, h1,
      (instantOk_iff (clock i) t sel (hret sel (hmem i sel h1))).1 h2, ?_, ?_⟩
    · intro j ds hj hel
      exact (h3 j ds hj ((instantOk_iff (clock j) t ds (hret ds (hmem j ds hj))).2 hel)).1
    · intro j ds hji hj hel
      exact (h3 j ds hj ((instantOk_iff (clock j) t ds (hret ds (hmem j ds hj))).2 hel)).2 hji

/-- Witness of `selectInstant_finest_eligible`: the datasources of the test,
queried two hours back, the clock reading two hours throughout. -/
theorem selectInstant_finest_eligible_witness :
    selectInstant (fun _ => 7200000000000) 0 testConfigInstant
        = some (1, { URL := ⟨"http".toList, "ds2".toList, []⟩, Resolution := 60000000000,
                     Retention := 0, StartTime := 0 })
    ∧ ∃ (i : Nat) (sel : DatasourceConfig), selectInstant (fun _ => 7200000000000) 0 testConfigInstant = some (i, sel)
      ∧ testConfigInstant.Datasources[i]? = some sel
      ∧ eligibleInstant 7200000000000 0 sel
      ∧ (∀ (j : Nat) (ds : DatasourceConfig), testConfigInstant.Datasources[j]? = some ds →
          eligibleInstant 7200000000000 0 ds → sel.Resolution ≤ ds.Resolution)
      ∧ (∀ (j : Nat) (ds : DatasourceConfig), j < i → testConfigInstant.Datasources[j]? = some ds →
          eligibleInstant 7200000000000 0 ds → sel.Resolution < ds.Resolution) :=
  ⟨by decide,
    selectInstant_finest_eligible (fun _ => 7200000000000) 0 testConfigInstant (by decide)
      ⟨1, _, rfl, by decide⟩⟩

/-- C1, as stated, fails: a datasource whose retention is the least `int64`
is not eligible at `t = now`, since `now - Retention` lies `2^63` ns ahead; yet
`ds.Retention * -1` wraps to the least `int64` again, the datasource passes the
test of the loop and, being the finest, is selected before the eligible one. -/
theorem selectInstant_least_retention :
    (∃ ds ∈ testConfigLeastRetention.Datasources, eligibleInstant 0 0 ds)
    ∧ selectInstant (fun _ => 0) 0 testConfigLeastRetention
        = some (0, { URL := ⟨"http".toList, "ds1".toList, []⟩, Resolution := 1000000000,
                     Retention := -9223372036854775808, StartTime := 0 })
    ∧ ¬ eligibleInstant 0 0
        { URL := ⟨"http".toList, "ds1".toList, []⟩, Resolution := 1000000000,
          Retention := -9223372036854775808, StartTime := 0 } := by
  decide

/-- C2, as amended.  Range selection, for every `start`, `end`, `step`, every
sequence of clock readings and every datasource list such that the retentions
are `int64` values other than the least one and no difference
`step - Resolution` leaves `int64`.  A datasource is usable when it has no
retention or neither `start` nor `end` is before the reading of `time.Now()`
taken in its own iteration, less its retention, and its resolution is at most
`step`.  The loop of `handleQueryRange` never selects a datasource that is not
usable; and when some datasource is usable, it selects a datasource of the
list that is usable, whose resolution is the largest among the usable ones,
and before which no usable datasource of that resolution is listed. -/
theorem selectRange_coarsest_usable (clock : Nat → Int) (start end_ step : Int) (cfg : Config)
    (hret : ∀ ds ∈ cfg.Datasources, retentionInRange ds)
    (hgap : ∀ ds ∈ cfg.Datasources, gapInRange step ds) :
    (∀ i sel, selectRange clock start end_ step cfg = some (i, sel) →
        cfg.Datasources[i]? = some sel ∧ usableRange (clock i) start end_ step sel)
    ∧ ((∃ j ds, cfg.Datasources[j]? = some ds ∧ usableRange (clock j) start end_ step ds) →
        ∃ (i : Nat) (sel : DatasourceConfig), selectRange clock start end_ step cfg = some (i, sel)
          ∧ cfg.Datasources[i]? = some sel
          ∧ usableRange (clock i) start end_ step sel
          ∧ (∀ (j : Nat) (ds : DatasourceConfig), cfg.Datasources[j]? = some ds →
              usableRange (clock j) start end_ step ds → ds.Resolution ≤ sel.Resolution)
          ∧ (∀ (j : Nat) (ds : DatasourceConfig), j < i → cfg.Datasources[j]? = some ds →
              usableRange (clock j) start end_ step ds → ds.Resolution < sel.Resolution)) := by
  have hinv := selectRange_inv clock start end_ step cfg
  have hmem : ∀ j ds, cfg.Datasources[j]? = some ds → ds ∈ cfg.Datasources :=
    fun j ds hj => List.mem_iff_getElem?.2 ⟨j, hj⟩
  cases hsel : selectRange clock start end_ step cfg with
  | none =>
    rw [hsel] at hinv
    refine ⟨fun i sel h => (by cases h), ?_⟩
    rintro ⟨j, ds, hj, hel⟩
    have := hinv j ds hj
    simp only at this
    rw [(rangeOk_iff (clock j) start end_ step ds (hret ds (hmem j ds hj))
      (hgap ds (hmem j ds hj))).2 hel] at this
    cases this
  | some p =>
    obtain ⟨i, sel⟩ := p
    rw [hsel] at hinv
    obtain ⟨h1, h2, h3⟩ := hinv
    have hselmem : sel ∈ cfg.Datasources := hmem i sel h1
    have husable := (rangeOk_iff (clock i) start end_ step sel (hret sel hselmem)
      (hgap sel hselmem)).1 h2
    have key : ∀ j ds, cfg.Datasources[j]? = some ds →
        usableRange (clock j) start end_ step ds →
        ds.Resolution ≤ sel.Resolution ∧ (j < i → ds.Resolution < sel.Resolution) := by
      intro j ds hj hel
      have hm := hmem j ds hj
      have h4 := h3 j ds hj
        ((rangeOk_iff (clock j) start end_ step ds (hret ds hm) (hgap ds hm)).2 hel)
      simp only at h4
      rw [wrapInt64_of_isInt64 _ (hgap sel hselmem), wrapInt64_of_isInt64 _ (hgap ds hm)] at h4
      exact ⟨by omega, fun hji => by have := h4.2 hji; omega⟩
    refine ⟨?_, fun _ => ⟨i, sel, rfl, h1, husable, ?_, ?_⟩⟩
    · intro i2 sel2 heq
      cases heq
      exact ⟨h1, husable⟩
    · intro j ds hj hel
      exact (key j ds hj hel).1
    · intro j ds hji hj hel
      exact (key j ds hj hel).2 hji

/-- Witness of `selectRange_coarsest_usable`: the datasources of the test, the
last hour at a step of two minutes. -/
theorem selectRange_coarsest_usable_witness :
    selectRange (fun _ => 3600000000000) 0 3600000000000 120000000000 testConfigRange
        = some (1, { URL := ⟨"http".toList, "ds2".toList, []⟩, Resolution := 60000000000,
                     Retention := 0, StartTime := 0 })
    ∧ ∃ (i : Nat) (sel : DatasourceConfig), selectRange (fun _ => 3600000000000) 0 3600000000000 120000000000
          testConfigRange = some (i, sel)
        ∧ testConfigRange.Datasources[i]? = some sel
        ∧ usableRange 3600000000000 0 3600000000000 120000000000 sel
        ∧ (∀ (j : Nat) (ds : DatasourceConfig), testConfigRange.Datasources[j]? = some ds →
            usableRange 3600000000000 0 3600000000000 120000000000 ds →
              ds.Resolution ≤ sel.Resolution)
        ∧ (∀ (j : Nat) (ds : DatasourceConfig), j < i → testConfigRange.Datasources[j]? = some ds →
            usableRange 3600000000000 0 3600000000000 120000000000 ds →
              ds.Resolution < sel.Resolution) :=
  ⟨by decide,
    (selectRange_coarsest_usable (fun _ => 3600000000000) 0 3600000000000 120000000000
      testConfigRange (by decide) (by decide)).2 ⟨1, _, rfl, by decide⟩⟩

/-- C2, as stated, fails: for the step `-9223372036854775807` ns, which
`time.ParseDuration` returns for `-9223372036854775807ns`, every difference
`step - Resolution` wraps to a positive `int64`; no datasource of the test is
usable, each resolution exceeding the step, yet the loop selects the third.
And a datasource whose retention is the least `int64` is selected for a range
at the current time, which its retention window excludes. -/
theorem selectRange_wrapping_step :
    isInt64 (-9223372036854775807)
    ∧ (∀ ds ∈ testConfigRange.Datasources,
        ¬ usableRange 0 0 3600000000000 (-9223372036854775807) ds)
    ∧ selectRange (fun _ => 0) 0 3600000000000 (-9223372036854775807) testConfigRange
        = some (2, { URL := ⟨"http".toList, "ds3".toList, []⟩, Resolution := 600000000000,
                     Retention := 0, StartTime := 0 })
    ∧ ¬ ((600000000000 : Int) ≤ -9223372036854775807)
    ∧ selectRange (fun _ => 0) 0 0 30000000000 testConfigLeastRetention
        = some (0, { URL := ⟨"http".toList, "ds1".toList, []⟩, Resolution := 1000000000,
                     Retention := -9223372036854775808, StartTime := 0 })
    ∧ ¬ usableRange 0 0 0 30000000000
        { URL := ⟨"http".toList, "ds1".toList, []⟩, Resolution := 1000000000,
          Retention := -9223372036854775808, StartTime := 0 } := by
  decide

/-! ### Regular expressions -/

namespace Regex

theorem denotes_nil_of_nullable : ∀ r : Regex, nullable r = true → Denotes r []
  | none, h => by simp [nullable] at h
  | eps, _ => Denotes.eps
  | cls _, h => by simp [nullable] at h
  | seq r s, h => by
      simp only [nullable, Bool.and_eq_true] at h
      exact Denotes.seq r s [] [] (denotes_nil_of_nullable r h.1) (denotes_nil_of_nullable s h.2)
  | alt r s, h => by
      simp only [nullable, Bool.or_eq_true] at h
      rcases h with h | h
      · exact Denotes.altL r s [] (denotes_nil_of_nullable r h)
      · exact Denotes.altR r s [] (denotes_nil_of_nullable s h)
  | star r, _ => Denotes.starNil r

theorem nullable_of_denotes {r : Regex} {w : GoString} (h : Denotes r w) :
    w = [] → nullable r = true := by
  induction h with
  | eps => intro _; rfl
  | cls p c hp => intro hw; cases hw
  | seq r s u v _ _ ihr ihs =>
    intro hw
    obtain ⟨hu, hv⟩ := List.append_eq_nil.1 hw
    simp [nullable, ihr hu, ihs hv]
  | altL r s u _ ih => intro hw; simp [nullable, ih hw]
  | altR r s u _ ih => intro hw; simp [nullable, ih hw]
  | starNil r => intro _; rfl
  | starCons r u v _ _ _ _ => intro _; rfl

theorem nullable_iff (r : Regex) : nullable r = true ↔ Denotes r [] :=
  ⟨denotes_nil_of_nullable r, fun h => nullable_of_denotes h rfl⟩

theorem denotes_of_deriv : ∀ (r : Regex) (c : Char) (w : GoString),
    Denotes (deriv r c) w → Denotes r (c :: w)
  | none, c, w, h => by simp only [deriv] at h; cases h
  | eps, c, w, h => by simp only [deriv] at h; cases h
  | cls p, c, w, h => by
      simp only [deriv] at h
      by_cases hp : p c = true
      · rw [if_pos hp] at h
        cases h
        exact Denotes.cls p c hp
      · rw [if_neg hp] at h
        cases h
  | seq r s, c, w, h => by
      simp only [deriv] at h
      have left : ∀ w, Denotes (seq (deriv r c) s) w → Denotes (seq r s) (c :: w) := by
        intro w hw
        cases hw with
        | seq _ _ u v hu hv =>
          have := Denotes.seq r s (c :: u) v (denotes_of_deriv r c u hu) hv
          simpa using this
      by_cases hn : nullable r = true
      · rw [if_pos hn] at h
        cases h with
        | altL _ _ _ h1 => exact left w h1
        | altR _ _ _ h2 =>
          have := Denotes.seq r s [] (c :: w) (denotes_nil_of_nullable r hn)
            (denotes_of_deriv s c w h2)
          simpa using this
      · rw [if_neg hn] at h
        exact left w h
  | alt r s, c, w, h => by
      simp only [deriv] at h
      cases h with
      | altL _ _ _ h1 => exact Denotes.altL r s _ (denotes_of_deriv r c w h1)
      | altR _ _ _ h2 => exact Denotes.altR r s _ (denotes_of_deriv s c w h2)
  | star r, c, w, h => by
      simp only [deriv] at h
      cases h with
      | seq _ _ u v hu hv =>
        have := Denotes.starCons r (c :: u) v (denotes_of_deriv r c u hu) hv
        simpa using this

theorem deriv_of_denotes {r : Regex} {x : GoString} (h : Denotes r x) :
    ∀ (c : Char) (w : GoString), x = c :: w → Denotes (deriv r c) w := by
  induction h with
  | eps => intro c w hx; cases hx
  | cls p d hp =>
    intro c w hx
    cases hx
    simp only [deriv, hp, if_true]
    exact Denotes.eps
  | seq r s u v hu hv ihr ihs =>
    intro c w hx
    cases u with
    | nil =>
      simp only [List.nil_append] at hx
      have hn := nullable_of_denotes hu rfl
      simp only [deriv, hn, if_true]
      exact Denotes.altR _ _ _ (ihs c w hx)
    | cons d u2 =>
      simp only [List.cons_append, List.cons.injEq] at hx
      obtain ⟨hd, hw⟩ := hx
      subst hd hw
      have h1 := Denotes.seq _ s u2 v (ihr d u2 rfl) hv
      simp only [deriv]
      by_cases hn : nullable r = true
      · rw [if_pos hn]; exact Denotes.altL _ _ _ h1
      · rw [if_neg hn]; exact h1
  | altL r s u _ ih =>
    intro c w hx
    simp only [deriv]
    exact Denotes.altL _ _ _ (ih c w hx)
  | altR r s u _ ih =>
    intro c w hx
    simp only [deriv]
    exact Denotes.altR _ _ _ (ih c w hx)
  | starNil r => intro c w hx; cases hx
  | starCons r u v hu hv ihr ihs =>
    intro c w hx
    cases u with
    | nil =>
      simp only [List.nil_append] at hx
      exact ihs c w hx
    | cons d u2 =>
      simp only [List.cons_append, List.cons.injEq] at hx
      obtain ⟨hd, hw⟩ := hx
      subst hd hw
      simp only [deriv]
      exact Denotes.seq _ _ u2 v (ihr d u2 rfl) hv

theorem deriv_iff (r : Regex) (c : Char) (w : GoString) :
    Denotes (deriv r c) w ↔ Denotes r (c :: w) :=
  ⟨denotes_of_deriv r c w, fun h => deriv_of_denotes h c w rfl⟩

/-- The matcher decides the denotation. -/
theorem matchString_iff (w : GoString) : ∀ r : Regex, MatchString r w = true ↔ Denotes r w := by
  induction w with
  | nil => intro r; simpa [MatchString] using nullable_iff r
  | cons c w ih =>
    intro r
    have := ih (deriv r c)
    simp only [MatchString, List.foldl_cons] at this ⊢
    rw [this, deriv_iff]

theorem denotes_lit (a : GoString) : ∀ w : GoString, Denotes (lit a) w ↔ w = a := by
  induction a with
  | nil =>
    intro w
    constructor
    · intro h; simp only [lit] at h; cases h; rfl
    · intro h; subst h; exact Denotes.eps
  | cons c a ih =>
    intro w
    constructor
    · intro h
      simp only [lit] at h
      cases h with
      | seq _ _ u v hu hv =>
        cases hu with
        | cls _ d hd =>
          have : d = c := by simpa using hd
          subst this
          rw [(ih v).1 hv]
          rfl
    · intro h
      subst h
      simp only [lit]
      exact Denotes.seq _ _ [c] a (Denotes.cls _ c (by simp)) ((ih a).2 rfl)

theorem denotes_seq_iff (r s : Regex) (w : GoString) :
    Denotes (seq r s) w ↔ ∃ u v, w = u ++ v ∧ Denotes r u ∧ Denotes s v := by
  constructor
  · intro h
    cases h with
    | seq _ _ u v hu hv => exact ⟨u, v, rfl, hu, hv⟩
  · rintro ⟨u, v, rfl, hu, hv⟩
    exact Denotes.seq r s u v hu hv

theorem all_of_denotes_star_cls {r : Regex} {w : GoString} (h : Denotes r w) :
    ∀ p : Char → Bool, r = star (cls p) → ∀ c ∈ w, p c = true := by
  induction h with
  | eps => intro p hr; cases hr
  | cls q c hq => intro p hr; cases hr
  | seq r s u v _ _ _ _ => intro p hr; cases hr
  | altL r s u _ _ => intro p hr; cases hr
  | altR r s u _ _ => intro p hr; cases hr
  | starNil r => intro p _ c hc; cases hc
  | starCons r u v hu hv _ ihs =>
    intro p hr c hc
    cases hr
    rcases List.mem_append.1 hc with h1 | h1
    · cases hu with
      | cls _ d hd =>
        simp only [List.mem_singleton] at h1
        rw [h1]; exact hd
    · exact ihs p rfl c h1

theorem denotes_star_cls (p : Char → Bool) (w : GoString) :
    Denotes (star (cls p)) w ↔ ∀ c ∈ w, p c = true := by
  constructor
  · intro h; exact all_of_denotes_star_cls h p rfl
  · induction w with
    | nil => intro _; exact Denotes.starNil _
    | cons c w ih =>
      intro h
      have h1 := Denotes.starCons (cls p) [c] w (Denotes.cls p c (h c (by simp)))
        (ih (fun d hd => h d (by simp [hd])))
      simpa using h1

theorem denotes_plus_cls (p : Char → Bool) (w : GoString) :
    Denotes (plus (cls p)) w ↔ w ≠ [] ∧ ∀ c ∈ w, p c = true := by
  unfold plus
  rw [denotes_seq_iff]
  constructor
  · rintro ⟨u, v, rfl, hu, hv⟩
    cases hu with
    | cls _ d hd =>
      refine ⟨by simp, ?_⟩
      intro c hc
      simp only [List.singleton_append, List.mem_cons] at hc
      rcases hc with rfl | hc
      · exact hd
      · exact (denotes_star_cls p v).1 hv c hc
  · rintro ⟨hne, hall⟩
    cases w with
    | nil => exact absurd rfl hne
    | cons c w =>
      exact ⟨[c], w, rfl, Denotes.cls p c (hall c (by simp)),
        (denotes_star_cls p w).2 (fun d hd => hall d (by simp [hd]))⟩

end Regex

/-- The pattern of `isDigit` accepts the non-empty strings of digits and dots. -/
theorem isDigit_iff (s : GoString) :
    isDigit s = true ↔ s ≠ [] ∧ ∀ c ∈ s, (('0' ≤ c ∧ c ≤ '9') ∨ c = '.') := by
  unfold isDigit digitsRe
  rw [Regex.matchString_iff, Regex.denotes_plus_cls]
  simp

/-- The pattern of the label-values path accepts `/api/v1/label/`, then a
non-empty name without a slash, then `/values`. -/
theorem labelValuesPathRe_iff (path : GoString) :
    labelValuesPathRe.MatchString path = true ↔
      ∃ name : GoString, name ≠ [] ∧ '/' ∉ name
        ∧ path = "/api/v1/label/".toList ++ name ++ "/values".toList := by
  unfold labelValuesPathRe
  rw [Regex.matchString_iff, Regex.denotes_seq_iff]
  constructor
  · rintro ⟨u, v, rfl, hu, hv⟩
    rw [Regex.denotes_seq_iff] at hv
    obtain ⟨n, z, rfl, hn, hz⟩ := hv
    rw [Regex.denotes_lit] at hu hz
    rw [Regex.denotes_plus_cls] at hn
    subst hu hz
    refine ⟨n, hn.1, ?_, by simp⟩
    intro hmem
    have := hn.2 '/' hmem
    simp at this
  · rintro ⟨name, hne, hslash, rfl⟩
    refine ⟨"/api/v1/label/".toList, name ++ "/values".toList, by simp,
      (Regex.denotes_lit _ _).2 rfl, ?_⟩
    rw [Regex.denotes_seq_iff]
    refine ⟨name, "/values".toList, rfl, ?_, (Regex.denotes_lit _ _).2 rfl⟩
    rw [Regex.denotes_plus_cls]
    refine ⟨hne, ?_⟩
    intro c hc
    simp only [bne_iff_ne, ne_eq]
    intro hc2
    subst hc2
    exact hslash hc

/-- C9. `ServeHTTP` sends a request to range selection exactly for the path
`/api/v1/query_range`, to instant selection exactly for `/api/v1/query`, to
the label-values aggregation exactly for `/api/v1/label/<name>/values` with a
non-empty name that holds no slash; every other path is answered 404 by the
proxy itself, with no selection and no backend call. -/
theorem serveHTTP_dispatch (rt : Runtime) (net : Network) (clock : Nat → Int) (cfg : Config)
    (req : Request) :
    (route req.Path = Route.queryRange ↔ req.Path = "/api/v1/query_range".toList)
    ∧ (route req.Path = Route.query ↔ req.Path = "/api/v1/query".toList)
    ∧ (route req.Path = Route.labelValues ↔
        ∃ name : GoString, name ≠ [] ∧ '/' ∉ name
          ∧ req.Path = "/api/v1/label/".toList ++ name ++ "/values".toList)
    ∧ (route req.Path = Route.notFound ↔
        (req.Path ≠ "/api/v1/query_range".toList ∧ req.Path ≠ "/api/v1/query".toList
          ∧ ¬ ∃ name : GoString, name ≠ [] ∧ '/' ∉ name
              ∧ req.Path = "/api/v1/label/".toList ++ name ++ "/values".toList))
    ∧ ServeHTTP rt net clock cfg req =
        (match route req.Path with
         | Route.queryRange => handleQueryRange rt clock cfg req
         | Route.query => handleQuery rt clock cfg req
         | Route.labelValues => handleLabelNameValues net cfg req
         | Route.notFound => Outcome.respond 404 "404 page not found\n".toList) := by
  have hqr : labelValuesPathRe.MatchString queryRangePath = false := by decide
  have hq : labelValuesPathRe.MatchString queryPath = false := by decide
  have hne : queryPath ≠ queryRangePath := by decide
  rw [← labelValuesPathRe_iff]
  refine ⟨?_, ?_, ?_, ?_, rfl⟩ <;> generalize req.Path = path
  · change route path = Route.queryRange ↔ path = queryRangePath
    unfold route
    by_cases h1 : path = queryRangePath
    · simp [h1]
    · by_cases h2 : path = queryPath
      · subst h2; simp [hne]
      · by_cases h3 : labelValuesPathRe.MatchString path = true <;> simp [h1, h2, h3]
  · change route path = Route.query ↔ path = queryPath
    unfold route
    by_cases h1 : path = queryRangePath
    · subst h1; simp [hne.symm]
    · by_cases h2 : path = queryPath
      · subst h2; simp [hne]
      · by_cases h3 : labelValuesPathRe.MatchString path = true <;> simp [h1, h2, h3]
  · unfold route
    by_cases h1 : path = queryRangePath
    · subst h1; simp [hqr]
    · by_cases h2 : path = queryPath
      · subst h2; simp [h1, hq]
      · by_cases h3 : labelValuesPathRe.MatchString path = true <;> simp [h1, h2, h3]
  · change route path = Route.notFound ↔ (path ≠ queryRangePath ∧ path ≠ queryPath
      ∧ ¬ labelValuesPathRe.MatchString path = true)
    unfold route
    by_cases h1 : path = queryRangePath
    · simp [h1]
    · by_cases h2 : path = queryPath
      · subst h2; simp [hne]
      · by_cases h3 : labelValuesPathRe.MatchString path = true <;> simp [h1, h2, h3]

/-! ### Label values -/

theorem foldl_mapInsert (ins : List GoString) :
    ∀ m : List GoString, m.Nodup →
      (ins.foldl mapInsert m).Nodup ∧ ∀ s, s ∈ ins.foldl mapInsert m ↔ s ∈ m ∨ s ∈ ins := by
  induction ins with
  | nil => intro m hm; simpa using hm
  | cons l ins ih =>
    intro m hm
    have hstep : (mapInsert m l).Nodup ∧ ∀ s, s ∈ mapInsert m l ↔ s ∈ m ∨ s = l := by
      unfold mapInsert
      by_cases hl : l ∈ m
      · rw [if_pos hl]
        refine ⟨hm, fun s => ⟨Or.inl, ?_⟩⟩
        rintro (h | h)
        · exact h
        · rw [h]; exact hl
      · rw [if_neg hl]
        refine ⟨?_, fun s => by simp⟩
        rw [List.nodup_append]
        refine ⟨hm, by simp, ?_⟩
        intro a ha hb
        simp only [List.mem_singleton] at hb
        subst hb
        exact hl ha
    obtain ⟨h1, h2⟩ := ih (mapInsert m l) hstep.1
    refine ⟨h1, fun s => ?_⟩
    rw [List.foldl_cons, h2, hstep.2]
    simp [or_assoc]

theorem labelsMapOf_nodup (ins : List GoString) : (labelsMapOf ins).Nodup :=
  (foldl_mapInsert ins [] List.nodup_nil).1

theorem mem_labelsMapOf (ins : List GoString) (s : GoString) :
    s ∈ labelsMapOf ins ↔ s ∈ ins := by
  have := (foldl_mapInsert ins [] List.nodup_nil).2 s
  simpa [labelsMapOf] using this

theorem sorted_orderedInsert_less (a : GoString) :
    ∀ l : List GoString, l.Sorted stringLess → a ∉ l →
      (l.orderedInsert stringLess a).Sorted stringLess := by
  intro l
  induction l with
  | nil => intro _ _; simp
  | cons b l ih =>
    intro hs ha
    rw [List.sorted_cons] at hs
    simp only [List.mem_cons, not_or] at ha
    simp only [List.orderedInsert]
    by_cases hab : stringLess a b
    · rw [if_pos hab]
      refine List.sorted_cons.2 ⟨?_, List.sorted_cons.2 hs⟩
      intro x hx
      rcases List.mem_cons.1 hx with rfl | hx
      · exact hab
      · exact lt_trans hab (hs.1 x hx)
    · rw [if_neg hab]
      have hba : stringLess b a := by
        rcases lt_trichotomy a b with h | h | h
        · exact absurd h hab
        · exact absurd h ha.1
        · exact h
      refine List.sorted_cons.2 ⟨?_, ih hs.2 ha.2⟩
      intro x hx
      rcases (List.mem_orderedInsert stringLess).1 hx with rfl | hx
      · exact hba
      · exact hs.1 x hx

theorem sorted_sortSlice : ∀ l : List GoString, l.Nodup → (sortSlice l).Sorted stringLess := by
  intro l
  induction l with
  | nil => intro _; simp [sortSlice]
  | cons a l ih =>
    intro hn
    rw [List.nodup_cons] at hn
    unfold sortSlice at ih ⊢
    simp only [List.insertionSort]
    apply sorted_orderedInsert_less a _ (ih hn.2)
    rw [List.mem_insertionSort]
    exact hn.1

theorem mem_sortSlice (l : List GoString) (s : GoString) : s ∈ sortSlice l ↔ s ∈ l := by
  unfold sortSlice
  exact List.mem_insertionSort stringLess

theorem sortSlice_eq_of_perm (l₁ l₂ : List GoString) (h : l₁.Perm l₂) (hn : l₂.Nodup) :
    sortSlice l₁ = sortSlice l₂ := by
  have hn1 : l₁.Nodup := h.nodup_iff.2 hn
  have hp : (sortSlice l₁).Perm (sortSlice l₂) :=
    ((List.perm_insertionSort stringLess l₁).trans h).trans
      (List.perm_insertionSort stringLess l₂).symm
  have i : IsAntisymm GoString stringLess := ⟨fun a b hab hba => absurd hba (lt_asymm hab)⟩
  exact List.eq_of_perm_of_sorted hp (sorted_sortSlice l₁ hn1) (sorted_sortSlice l₂ hn)

theorem labelsMapOf_perm (ins₁ ins₂ : List GoString) (h : ins₁.Perm ins₂) :
    (labelsMapOf ins₁).Perm (labelsMapOf ins₂) := by
  rw [List.perm_ext_iff_of_nodup (labelsMapOf_nodup ins₁) (labelsMapOf_nodup ins₂)]
  intro s
  rw [mem_labelsMapOf, mem_labelsMapOf]
  exact h.mem_iff

/-- Every schedule gives the same reply: the labels may be inserted in any
order and the map may be ranged over in any order. -/
theorem labelsReply_schedule (ins inserts labels : List GoString) (h1 : inserts.Perm ins)
    (h2 : labels.Perm (labelsMapOf inserts)) :
    labelsReply labels = labelsReply (labelsMapOf ins) := by
  unfold labelsReply
  have := sortSlice_eq_of_perm labels (labelsMapOf ins)
    (h2.trans (labelsMapOf_perm inserts ins h1)) (labelsMapOf_nodup ins)
  rw [this]

theorem wgCounter_zero (results : List BackendResult)
    (h : ∀ r ∈ results, r ≠ BackendResult.transportError) :
    results.length - ((results.map backendTask).filter (fun t => t.2)).length = 0 := by
  have : (results.map backendTask).filter (fun t => t.2) = results.map backendTask := by
    rw [List.filter_eq_self]
    intro t ht
    obtain ⟨r, hr, rfl⟩ := List.mem_map.1 ht
    cases r with
    | transportError => exact absurd rfl (h _ hr)
    | response _ _ _ => rfl
  rw [this]
  simp

/-- The handler blocks as soon as one backend call fails at transport level. -/
theorem blocked_of_transportError (results : List BackendResult)
    (h : BackendResult.transportError ∈ results) :
    labelNameValuesOutcome results = Outcome.blocked := by
  unfold labelNameValuesOutcome
  have hlt : ((results.map backendTask).filter (fun t => t.2)).length < results.length := by
    have hmem : backendTask BackendResult.transportError ∈ results.map backendTask :=
      List.mem_map_of_mem _ h
    have := (List.length_filter_lt_length_iff_exists
      (p := fun t : List GoString × Bool => t.2) (l := results.map backendTask)).2
      ⟨backendTask BackendResult.transportError, hmem, by simp [backendTask]⟩
    simpa using this
  simp only
  rw [if_pos (by omega)]

/-- C4. When every backend response decodes, `handleLabelNameValues` replies
200 with status `success`; the data are strictly ascending in the order of Go
strings, hence sorted and free of duplicates; a string is among them exactly
when some backend response holds it; and the reply does not depend on the
order in which the backends answer, nor on the order in which the labels are
inserted into the map or read from it. -/
theorem labelValues_merged_sorted (net : Network) (cfg : Config) (req : Request)
    (hdec : ∀ ds ∈ cfg.Datasources, ∃ code lvr,
      net (backendURL ds req) = BackendResult.response code true lvr) :
    ∃ data : List GoString,
      handleLabelNameValues net cfg req
        = Outcome.respondJSON 200 { Status := "success".toList, Data := data }
      ∧ data.Sorted stringLess
      ∧ (∀ s, s ∈ data ↔ ∃ ds ∈ cfg.Datasources, ∃ code lvr,
          net (backendURL ds req) = BackendResult.response code true lvr ∧ s ∈ lvr.Data)
      ∧ (∀ results : List BackendResult,
          results.Perm (cfg.Datasources.map (fun ds => net (backendURL ds req))) →
            labelNameValuesOutcome results = handleLabelNameValues net cfg req)
      ∧ (∀ inserts labels : List GoString,
          inserts.Perm ((cfg.Datasources.map (fun ds => net (backendURL ds req))).flatMap
            (fun r => (backendTask r).1)) →
          labels.Perm (labelsMapOf inserts) →
            labelsReply labels = handleLabelNameValues net cfg req) := by
  have hall : ∀ r ∈ cfg.Datasources.map (fun ds => net (backendURL ds req)),
      r ≠ BackendResult.transportError := by
    intro r hr
    obtain ⟨ds, hds, rfl⟩ := List.mem_map.1 hr
    obtain ⟨code, lvr, h⟩ := hdec ds hds
    rw [h]
    intro hc; cases hc
  have hout : ∀ results : List BackendResult,
      (∀ r ∈ results, r ≠ BackendResult.transportError) →
      labelNameValuesOutcome results
        = labelsReply (labelsMapOf (results.flatMap (fun r => (backendTask r).1))) := by
    intro results h
    unfold labelNameValuesOutcome
    simp only
    rw [wgCounter_zero results h]
    simp [List.flatMap_map]
  refine ⟨sortSlice (labelsMapOf ((cfg.Datasources.map
    (fun ds => net (backendURL ds req))).flatMap (fun r => (backendTask r).1))), ?_, ?_, ?_, ?_, ?_⟩
  · unfold handleLabelNameValues
    rw [hout _ hall]
    rfl
  · exact sorted_sortSlice _ (labelsMapOf_nodup _)
  · intro s
    rw [mem_sortSlice, mem_labelsMapOf, List.mem_flatMap]
    constructor
    · rintro ⟨r, hr, hs⟩
      obtain ⟨ds, hds, rfl⟩ := List.mem_map.1 hr
      obtain ⟨code, lvr, h⟩ := hdec ds hds
      rw [h] at hs
      exact ⟨ds, hds, code, lvr, h, hs⟩
    · rintro ⟨ds, hds, code, lvr, h, hs⟩
      refine ⟨net (backendURL ds req), List.mem_map_of_mem _ hds, ?_⟩
      rw [h]
      exact hs
  · intro results hperm
    unfold handleLabelNameValues
    rw [hout _ hall, hout results (fun r hr => hall r (hperm.mem_iff.1 hr))]
    exact labelsReply_schedule _ _ _ (hperm.flatMap_right _) (List.Perm.refl _)
  · intro inserts labels h1 h2
    unfold handleLabelNameValues
    rw [hout _ hall]
    exact labelsReply_schedule _ _ _ h1 h2

/-- Witness of `labelValues_merged_sorted`: the two backends of
`TestProxyLabelNameValues`. -/
theorem labelValues_merged_sorted_witness :
    handleLabelNameValues testNetworkBoth testConfigLabels testRequestLabels
        = Outcome.respondJSON 200
            { Status := "success".toList, Data := ["a".toList, "b".toList, "foo".toList] }
    ∧ ∃ data : List GoString,
      handleLabelNameValues testNetworkBoth testConfigLabels testRequestLabels
        = Outcome.respondJSON 200 { Status := "success".toList, Data := data }
      ∧ data.Sorted stringLess
      ∧ (∀ s, s ∈ data ↔ ∃ ds ∈ testConfigLabels.Datasources, ∃ code lvr,
          testNetworkBoth (backendURL ds testRequestLabels)
            = BackendResult.response code true lvr ∧ s ∈ lvr.Data)
      ∧ (∀ results : List BackendResult,
          results.Perm (testConfigLabels.Datasources.map
            (fun ds => testNetworkBoth (backendURL ds testRequestLabels))) →
            labelNameValuesOutcome results
              = handleLabelNameValues testNetworkBoth testConfigLabels testRequestLabels)
      ∧ (∀ inserts labels : List GoString,
          inserts.Perm ((testConfigLabels.Datasources.map
            (fun ds => testNetworkBoth (backendURL ds testRequestLabels))).flatMap
            (fun r => (backendTask r).1)) →
          labels.Perm (labelsMapOf inserts) →
            labelsReply labels
              = handleLabelNameValues testNetworkBoth testConfigLabels testRequestLabels) :=
  ⟨by decide,
    labelValues_merged_sorted testNetworkBoth testConfigLabels testRequestLabels (by
      intro ds hds
      simp only [testConfigLabels, List.mem_cons, List.mem_singleton, List.not_mem_nil,
        or_false] at hds
      rcases hds with rfl | rfl
      · exact ⟨200, _, rfl⟩
      · exact ⟨200, _, rfl⟩)⟩

/-- C5, at the failing input: with two backends of which the first fails at
transport level, `handleLabelNameValues` does not reply: the goroutine of the
failed call returns before `wg.Done()` and `wg.Wait()` never returns. -/
theorem labelValues_transport_error_blocks :
    (testConfigLabels.Datasources.map
        (fun ds => testNetworkTransportError (backendURL ds testRequestLabels)))
      = [BackendResult.transportError,
         BackendResult.response 200 true
           { Status := "success".toList, Data := ["foo".toList, "b".toList] }]
    ∧ handleLabelNameValues testNetworkTransportError testConfigLabels testRequestLabels
      = Outcome.blocked := by
  decide

/-- C6, at the failing input: a backend that answers HTTP 500 with status
`error` still contributes its data: the label `x`, which only that response
holds, is in the reply. -/
theorem labelValues_error_status_merged :
    handleLabelNameValues testNetworkErrorStatus testConfigLabels testRequestLabels
      = Outcome.respondJSON 200
          { Status := "success".toList, Data := ["b".toList, "foo".toList, "x".toList] } := by
  decide

/-! ### Replies of the query handlers -/

theorem handleQuery_of_time (rt : Runtime) (clock : Nat → Int) (cfg : Config) (req : Request)
    (t : Int) (ht : parsePromTime rt (req.queryGet "time".toList) = Except.ok t) :
    handleQuery rt clock cfg req =
      match selectInstant clock t cfg with
      | Option.none => Outcome.respond 400 notFoundBody
      | some targetDs => Outcome.forward targetDs := by
  unfold handleQuery
  rw [ht]

theorem handleQueryRange_of_params (rt : Runtime) (clock : Nat → Int) (cfg : Config)
    (req : Request) (step start end_ : Int)
    (hstep : parsePromDuration rt (req.queryGet "step".toList) = Except.ok step)
    (hstart : parsePromTime rt (req.queryGet "start".toList) = Except.ok start)
    (hend : parsePromTime rt (req.queryGet "end".toList) = Except.ok end_) :
    handleQueryRange rt clock cfg req =
      match selectRange clock start end_ step cfg with
      | Option.none => Outcome.respond 400 notFoundBody
      | some targetDs => Outcome.forward targetDs := by
  unfold handleQueryRange
  rw [hstep]
  simp only
  rw [hstart]
  simp only
  rw [hend]

/-- The loop of `handleQuery` leaves `targetDs` nil when no datasource is
eligible, and an eligible datasource of the list otherwise. -/
theorem selectInstant_cases (clock : Nat → Int) (t : Int) (cfg : Config)
    (hret : ∀ ds ∈ cfg.Datasources, retentionInRange ds) :
    (selectInstant clock t cfg = Option.none
        ∧ ¬ ∃ j ds, cfg.Datasources[j]? = some ds ∧ eligibleInstant (clock j) t ds)
    ∨ (∃ i sel, selectInstant clock t cfg = some (i, sel) ∧ cfg.Datasources[i]? = some sel
        ∧ eligibleInstant (clock i) t sel) := by
  have hinv := selectInstant_inv clock t cfg
  have hmem : ∀ j ds, cfg.Datasources[j]? = some ds → ds ∈ cfg.Datasources :=
    fun j ds hj => List.mem_iff_getElem?.2 ⟨j, hj⟩
  cases hsel : selectInstant clock t cfg with
  | none =>
    rw [hsel] at hinv
    left
    refine ⟨rfl, ?_⟩
    rintro ⟨j, ds, hj, hel⟩
    have := hinv j ds hj
    simp only at this
    rw [(instantOk_iff (clock j) t ds (hret ds (hmem j ds hj))).2 hel] at this
    cases this
  | some p =>
    obtain ⟨i, sel⟩ := p
    rw [hsel] at hinv
    obtain ⟨h1, h2, _⟩ := hinv
    right
    exact ⟨i, sel, rfl, h1, (instantOk_iff (clock i) t sel (hret sel (hmem i sel h1))).1 h2⟩

/-- The loop of `handleQueryRange` leaves `targetDs` nil when no datasource is
usable, and a usable datasource of the list otherwise. -/
theorem selectRange_cases (clock : Nat → Int) (start end_ step : Int) (cfg : Config)
    (hret : ∀ ds ∈ cfg.Datasources, retentionInRange ds)
    (hgap : ∀ ds ∈ cfg.Datasources, gapInRange step ds) :
    (selectRange clock start end_ step cfg = Option.none
        ∧ ¬ ∃ j ds, cfg.Datasources[j]? = some ds ∧ usableRange (clock j) start end_ step ds)
    ∨ (∃ i sel, selectRange clock start end_ step cfg = some (i, sel)
        ∧ cfg.Datasources[i]? = some sel
        ∧ usableRange (clock i) start end_ step sel) := by
  have hinv := selectRange_inv clock start end_ step cfg
  have hmem : ∀ j ds, cfg.Datasources[j]? = some ds → ds ∈ cfg.Datasources :=
    fun j ds hj => List.mem_iff_getElem?.2 ⟨j, hj⟩
  cases hsel : selectRange clock start end_ step cfg with
  | none =>
    rw [hsel] at hinv
    left
    refine ⟨rfl, ?_⟩
    rintro ⟨j, ds, hj, hel⟩
    have := hinv j ds hj
    simp only at this
    rw [(rangeOk_iff (clock j) start end_ step ds (hret ds (hmem j ds hj))
      (hgap ds (hmem j ds hj))).2 hel] at this
    cases this
  | some p =>
    obtain ⟨i, sel⟩ := p
    rw [hsel] at hinv
    obtain ⟨h1, h2, _⟩ := hinv
    have hm := hmem i sel h1
    right
    exact ⟨i, sel, rfl, h1,
      (rangeOk_iff (clock i) start end_ step sel (hret sel hm) (hgap sel hm)).1 h2⟩

/-- C3, as amended.  The retentions are `int64` values other than the least
one, and for a range query no difference `step - Resolution` leaves `int64`;
eligibility and usability of a datasource are taken at the reading of
`time.Now()` in its own iteration.  For a query whose `time` parses,
`handleQuery` replies 400 with the body `Datasource for the query is not
found` and a line feed, contacting no backend, exactly when no datasource is
eligible; otherwise it forwards the request to one datasource of the list,
an eligible one.  The same holds of `handleQueryRange` for a query whose
`step`, `start` and `end` parse, with the usable datasources.  The body is not
empty. -/
theorem no_datasource_iff (rt : Runtime) (clock : Nat → Int) (cfg : Config) (req : Request)
    (hret : ∀ ds ∈ cfg.Datasources, retentionInRange ds) :
    (∀ t, parsePromTime rt (req.queryGet "time".toList) = Except.ok t →
      (handleQuery rt clock cfg req = Outcome.respond 400 notFoundBody ↔
        ¬ ∃ j ds, cfg.Datasources[j]? = some ds ∧ eligibleInstant (clock j) t ds)
      ∧ ((∃ j ds, cfg.Datasources[j]? = some ds ∧ eligibleInstant (clock j) t ds) →
          ∃ i sel, handleQuery rt clock cfg req = Outcome.forward (i, sel)
            ∧ cfg.Datasources[i]? = some sel ∧ eligibleInstant (clock i) t sel))
    ∧ (∀ step start end_,
        parsePromDuration rt (req.queryGet "step".toList) = Except.ok step →
        parsePromTime rt (req.queryGet "start".toList) = Except.ok start →
        parsePromTime rt (req.queryGet "end".toList) = Except.ok end_ →
        (∀ ds ∈ cfg.Datasources, gapInRange step ds) →
        (handleQueryRange rt clock cfg req = Outcome.respond 400 notFoundBody ↔
          ¬ ∃ j ds, cfg.Datasources[j]? = some ds
              ∧ usableRange (clock j) start end_ step ds)
        ∧ ((∃ j ds, cfg.Datasources[j]? = some ds
              ∧ usableRange (clock j) start end_ step ds) →
            ∃ i sel, handleQueryRange rt clock cfg req = Outcome.forward (i, sel)
              ∧ cfg.Datasources[i]? = some sel
              ∧ usableRange (clock i) start end_ step sel))
    ∧ notFoundBody = "Datasource for the query is not found\n".toList
    ∧ notFoundBody ≠ [] := by
  refine ⟨?_, ?_, rfl, by decide⟩
  · intro t ht
    rw [handleQuery_of_time rt clock cfg req t ht]
    rcases selectInstant_cases clock t cfg hret with ⟨hnone, hno⟩ | ⟨i, sel, hsome, hi, hel⟩
    · rw [hnone]
      exact ⟨⟨fun _ => hno, fun _ => rfl⟩, fun hex => absurd hex hno⟩
    · rw [hsome]
      refine ⟨⟨fun h => ?_, fun hno => absurd ⟨i, sel, hi, hel⟩ hno⟩,
        fun _ => ⟨i, sel, rfl, hi, hel⟩⟩
      cases h
  · intro step start end_ hstep hstart hend hgap
    rw [handleQueryRange_of_params rt clock cfg req step start end_ hstep hstart hend]
    rcases selectRange_cases clock start end_ step cfg hret hgap with
      ⟨hnone, hno⟩ | ⟨i, sel, hsome, hi, hel⟩
    · rw [hnone]
      exact ⟨⟨fun _ => hno, fun _ => rfl⟩, fun hex => absurd hex hno⟩
    · rw [hsome]
      refine ⟨⟨fun h => ?_, fun hno => absurd ⟨i, sel, hi, hel⟩ hno⟩,
        fun _ => ⟨i, sel, rfl, hi, hel⟩⟩
      cases h

set_option maxRecDepth 100000 in
/-- Witness of `no_datasource_iff`: three hours after the epoch, datasources
that retain one hour refuse an instant query at the epoch and a range query
over the first hour. -/
theorem no_datasource_iff_witness :
    handleQuery testRuntime (fun _ => 10800000000000) testConfigShort testRequestInstant
      = Outcome.respond 400 notFoundBody
    ∧ handleQueryRange testRuntime (fun _ => 10800000000000) testConfigShort testRequestRange
      = Outcome.respond 400 notFoundBody :=
  have h := no_datasource_iff testRuntime (fun _ => 10800000000000) testConfigShort
    testRequestInstant (by decide)
  have h2 := no_datasource_iff testRuntime (fun _ => 10800000000000) testConfigShort
    testRequestRange (by decide)
  have e1 : ¬ ∃ ds ∈ testConfigShort.Datasources, eligibleInstant 10800000000000 0 ds := by
    decide
  have e2 : ¬ ∃ ds ∈ testConfigShort.Datasources,
      usableRange 10800000000000 0 3600000000000 120000000000 ds := by
    decide
  ⟨(h.1 0 (by decide)).1.2
      (fun ⟨j, ds, hj, hel⟩ => e1 ⟨ds, List.mem_iff_getElem?.2 ⟨j, hj⟩, hel⟩),
   (h2.2.1 120000000000 0 3600000000000 (by decide) (by decide) (by decide) (by decide)).1.2
      (fun ⟨j, ds, hj, hel⟩ => e2 ⟨ds, List.mem_iff_getElem?.2 ⟨j, hj⟩, hel⟩)⟩

set_option maxRecDepth 100000 in
/-- C3, as stated, fails.  The step `-9223372036854775807ns` parses, no
datasource of the test has a resolution below it, so none is usable, yet
`handleQueryRange` forwards the query to the third datasource instead of
replying 400: every difference `step - Resolution` wraps to a positive
`int64`.  And `handleQuery` forwards a query at the current time to a
datasource whose retention is the least `int64`, though that datasource, the
only one listed, is not eligible. -/
theorem no_datasource_yet_forwarded :
    parsePromDuration testRuntime (testRequestWrapStep.queryGet "step".toList)
        = Except.ok (-9223372036854775807)
    ∧ parsePromTime testRuntime (testRequestWrapStep.queryGet "start".toList) = Except.ok 0
    ∧ parsePromTime testRuntime (testRequestWrapStep.queryGet "end".toList)
        = Except.ok 3600000000000
    ∧ (∀ ds ∈ testConfigRange.Datasources,
        ¬ usableRange 0 0 3600000000000 (-9223372036854775807) ds)
    ∧ handleQueryRange testRuntime (fun _ => 0) testConfigRange testRequestWrapStep
        = Outcome.forward
            (2, { URL := ⟨"http".toList, "ds3".toList, []⟩, Resolution := 600000000000,
                  Retention := 0, StartTime := 0 })
    ∧ parsePromTime testRuntime (testRequestInstant.queryGet "time".toList) = Except.ok 0
    ∧ (∀ ds ∈ testConfigOnlyLeast.Datasources, ¬ eligibleInstant 0 0 ds)
    ∧ handleQuery testRuntime (fun _ => 0) testConfigOnlyLeast testRequestInstant
        = Outcome.forward
            (0, { URL := ⟨"http".toList, "ds1".toList, []⟩, Resolution := 1000000000,
                  Retention := -9223372036854775808, StartTime := 0 }) := by
  decide

/-! ### Parse errors -/

theorem carriesRaw_of_quoted (raw pre post : GoString) :
    carriesRaw raw (pre ++ timeQuote raw ++ post) := by
  refine ⟨⟨pre, post, rfl⟩, fun hplain => ?_⟩
  have h : raw.flatMap quoteChar = raw := by
    clear pre post
    induction raw with
    | nil => rfl
    | cons c cs ih =>
      have hc : quoteChar c = [c] := hplain c (by simp)
      have := ih (fun d hd => hplain d (by simp [hd]))
      simp [List.flatMap_cons, hc, this]
  unfold timeQuote
  rw [h]
  exact ⟨pre ++ [dquote], [dquote] ++ post, by simp⟩

theorem quoteChar_digit (c : Char) (h : ('0' ≤ c ∧ c ≤ '9') ∨ c = '.') : quoteChar c = [c] := by
  have hb : 46 ≤ c.toNat ∧ c.toNat ≤ 57 := by
    rcases h with ⟨h1, h2⟩ | rfl
    · have h1' : '0'.toNat ≤ c.toNat := h1
      have h2' : c.toNat ≤ '9'.toNat := h2
      have e0 : '0'.toNat = 48 := rfl
      have e9 : '9'.toNat = 57 := rfl
      omega
    · decide
  unfold quoteChar
  have hq : c ≠ dquote := by
    intro hc; rw [hc] at hb; revert hb; decide
  have hs : c ≠ bslash := by
    intro hc; rw [hc] at hb; revert hb; decide
  rw [if_neg (by omega), if_neg (by simp [hq, hs])]

theorem plainString_of_isDigit (s : GoString) (h : isDigit s = true) : plainString s :=
  fun c hc => quoteChar_digit c (((isDigit_iff s).1 h).2 c hc)

theorem carriesRaw_of_quoted_end (raw pre : GoString) :
    carriesRaw raw (pre ++ timeQuote raw) := by
  have := carriesRaw_of_quoted raw pre []
  simpa using this

theorem errorsCarry_errorString {α : Type} (orig pre : GoString) :
    ErrorsCarry orig
      (Except.error (GoError.errorString (pre ++ timeQuote orig)) : Except GoError α) := by
  intro e he
  cases he
  exact carriesRaw_of_quoted_end orig pre

theorem errorsCarry_invalidDuration {α : Type} (orig : GoString) :
    ErrorsCarry orig (Except.error (invalidDuration orig) : Except GoError α) :=
  errorsCarry_errorString orig _

theorem errorsCarry_ok {α : Type} (orig : GoString) (a : α) :
    ErrorsCarry orig (Except.ok a : Except GoError α) := by
  intro e he
  cases he

theorem errorsCarry_durationUnit (orig : GoString) (d v f : Nat) (scale : Float64)
    (s2 : GoString) : ErrorsCarry orig (durationUnit orig d v f scale s2) := by
  unfold durationUnit
  simp only
  repeat' split
  all_goals first
    | exact errorsCarry_invalidDuration orig
    | exact errorsCarry_ok orig _
    | exact errorsCarry_errorString orig _

theorem errorsCarry_durationTurn (orig : GoString) (d : Nat) (s : GoString) :
    ErrorsCarry orig (durationTurn orig d s) := by
  unfold durationTurn
  simp only
  repeat' split
  all_goals first
    | exact errorsCarry_invalidDuration orig
    | exact errorsCarry_durationUnit orig _ _ _ _ _

theorem errorsCarry_parseDurationLoop (orig : GoString) :
    ∀ (fuel d : Nat) (s : GoString), ErrorsCarry orig (parseDurationLoop orig fuel d s) := by
  intro fuel
  induction fuel with
  | zero =>
    intro d s
    exact errorsCarry_invalidDuration orig
  | succ fuel ih =>
    intro d s
    rw [parseDurationLoop]
    by_cases hs : s = []
    · rw [if_pos hs]
      exact errorsCarry_ok orig _
    · rw [if_neg hs]
      cases hturn : durationTurn orig d s with
      | error e =>
        intro e2 he2
        cases he2
        exact errorsCarry_durationTurn orig d s e hturn
      | ok p => exact ih _ _

theorem errorsCarry_timeParseDuration (orig : GoString) :
    ErrorsCarry orig (timeParseDuration orig) := by
  unfold timeParseDuration
  simp only
  generalize hs : (if (orig.head? == some '-' || orig.head? == some '+') = true
    then List.drop 1 orig else orig) = s
  by_cases h0 : s = "0".toList
  · rw [if_pos h0]
    exact errorsCarry_ok orig _
  · rw [if_neg h0]
    by_cases h1 : s = []
    · rw [if_pos h1]
      exact errorsCarry_invalidDuration orig
    · rw [if_neg h1]
      cases hloop : parseDurationLoop orig (s.length + 1) 0 s with
      | error e =>
        intro e2 he2
        cases he2
        exact errorsCarry_parseDurationLoop orig _ _ _ e hloop
      | ok d =>
        simp only
        repeat' split
        all_goals first
          | exact errorsCarry_invalidDuration orig
          | exact errorsCarry_ok orig _

theorem errorsCarry_strconvParseFloat (s : GoString) (hs : isDigit s = true) :
    ErrorsCarry s (strconvParseFloat s) := by
  have hq : strconvQuote s = timeQuote s := by
    have h : s.flatMap quoteChar = s := by
      have hp := plainString_of_isDigit s hs
      clear hs
      induction s with
      | nil => rfl
      | cons c cs ih =>
        have hc : quoteChar c = [c] := hp c (by simp)
        have := ih (fun d hd => hp d (by simp [hd]))
        simp [List.flatMap_cons, hc, this]
    unfold strconvQuote timeQuote
    rw [h]
  have key : ∀ err : GoString,
      carriesRaw s (GoError.numError "ParseFloat".toList s err).Error := by
    intro err
    have := carriesRaw_of_quoted s ("strconv.".toList ++ "ParseFloat".toList
      ++ ": parsing ".toList) (": ".toList ++ err)
    simpa [GoError.Error, hq, List.append_assoc] using this
  have key2 : ∀ (α : Type) (err : GoString), ErrorsCarry s
      (Except.error (GoError.numError "ParseFloat".toList s err) : Except GoError α) := by
    intro α err e he
    cases he
    exact key err
  unfold strconvParseFloat
  simp only
  repeat' split
  all_goals first
    | exact key2 _ _
    | exact errorsCarry_ok s _

theorem errorsCarry_timeParse (rt : Runtime) (s : GoString) :
    ErrorsCarry s (timeParse rt s) := by
  unfold timeParse
  split
  · exact errorsCarry_ok s _
  · intro e he
    cases he
    simp only [GoError.Error]
    rename_i le ve msg _
    split
    · have := carriesRaw_of_quoted s "parsing time ".toList
        (" as ".toList ++ timeQuote RFC3339 ++ ": cannot parse ".toList ++ timeQuote ve
          ++ " as ".toList ++ timeQuote le)
      simpa only [List.append_assoc] using this
    · exact carriesRaw_of_quoted s "parsing time ".toList _

theorem errorsCarry_parsePromTime (rt : Runtime) (s : GoString) :
    ErrorsCarry s (parsePromTime rt s) := by
  unfold parsePromTime
  split
  · rename_i hd
    split
    · rename_i e he
      intro e2 he2
      cases he2
      exact errorsCarry_strconvParseFloat s hd e he
    · exact errorsCarry_ok s _
  · split
    · rename_i e he
      intro e2 he2
      cases he2
      exact errorsCarry_timeParse rt s e he
    · exact errorsCarry_ok s _

theorem errorsCarry_parsePromDuration (rt : Runtime) (s : GoString) :
    ErrorsCarry s (parsePromDuration rt s) := by
  unfold parsePromDuration
  split
  · rename_i hd
    split
    · rename_i e he
      intro e2 he2
      cases he2
      exact errorsCarry_strconvParseFloat s hd e he
    · exact errorsCarry_ok s _
  · split
    · rename_i e he
      intro e2 he2
      cases he2
      exact errorsCarry_timeParseDuration s e he
    · exact errorsCarry_ok s _

theorem parse_fails_iff (rt : Runtime) (s : GoString) :
    ((∃ err, parsePromTime rt s = Except.error err) ↔
      ((isDigit s = true ∧ ∃ err, strconvParseFloat s = Except.error err)
        ∨ (isDigit s = false ∧ ∃ err, timeParse rt s = Except.error err)))
    ∧ ((∃ err, parsePromDuration rt s = Except.error err) ↔
      ((isDigit s = true ∧ ∃ err, strconvParseFloat s = Except.error err)
        ∨ (isDigit s = false ∧ ∃ err, timeParseDuration s = Except.error err))) := by
  unfold parsePromTime parsePromDuration
  cases hd : isDigit s
  · simp only [Bool.false_eq_true, if_false, false_and, false_or, true_and]
    constructor
    · cases timeParse rt s <;> simp
    · cases timeParseDuration s <;> simp
  · simp only [if_true, true_and, Bool.true_eq_false, false_and, or_false]
    constructor
    · cases strconvParseFloat s <;> simp
    · cases strconvParseFloat s <;> simp

/-- C7, as amended.  Bad parameters are rejected before selection.  When
`step`, or else `start`, or else `end` does not parse, `handleQueryRange`
replies 400 with the text of that parse error and a line feed, whatever the
datasources are; so does `handleQuery` when `time` does not parse.  The text
carries the raw value in quoted form, between double quotes with its
non-ASCII and control bytes, double quotes and backslashes escaped; it holds
the value itself when none of its characters needs an escape.  A value fails to parse exactly when it
matches `^[0-9\.]+$` and `strconv.ParseFloat` rejects it, or does not match
and `time.Parse`, for a duration `time.ParseDuration`, rejects it. -/
theorem bad_parameter_rejected (rt : Runtime) (clock : Nat → Int) (cfg : Config)
    (req : Request) :
    (∀ err, parsePromDuration rt (req.queryGet "step".toList) = Except.error err →
      handleQueryRange rt clock cfg req = Outcome.respond 400 (err.Error ++ "\n".toList)
      ∧ carriesRaw (req.queryGet "step".toList) err.Error)
    ∧ (∀ step err, parsePromDuration rt (req.queryGet "step".toList) = Except.ok step →
        parsePromTime rt (req.queryGet "start".toList) = Except.error err →
        handleQueryRange rt clock cfg req = Outcome.respond 400 (err.Error ++ "\n".toList)
        ∧ carriesRaw (req.queryGet "start".toList) err.Error)
    ∧ (∀ step start err, parsePromDuration rt (req.queryGet "step".toList) = Except.ok step →
        parsePromTime rt (req.queryGet "start".toList) = Except.ok start →
        parsePromTime rt (req.queryGet "end".toList) = Except.error err →
        handleQueryRange rt clock cfg req = Outcome.respond 400 (err.Error ++ "\n".toList)
        ∧ carriesRaw (req.queryGet "end".toList) err.Error)
    ∧ (∀ err, parsePromTime rt (req.queryGet "time".toList) = Except.error err →
        handleQuery rt clock cfg req = Outcome.respond 400 (err.Error ++ "\n".toList)
        ∧ carriesRaw (req.queryGet "time".toList) err.Error)
    ∧ (∀ s, ((∃ err, parsePromTime rt s = Except.error err) ↔
          ((isDigit s = true ∧ ∃ err, strconvParseFloat s = Except.error err)
            ∨ (isDigit s = false ∧ ∃ err, timeParse rt s = Except.error err)))
        ∧ ((∃ err, parsePromDuration rt s = Except.error err) ↔
          ((isDigit s = true ∧ ∃ err, strconvParseFloat s = Except.error err)
            ∨ (isDigit s = false ∧ ∃ err, timeParseDuration s = Except.error err)))) := by
  refine ⟨?_, ?_, ?_, ?_, parse_fails_iff rt⟩
  · intro err h
    refine ⟨?_, errorsCarry_parsePromDuration rt _ err h⟩
    unfold handleQueryRange
    rw [h]
  · intro step err h1 h2
    refine ⟨?_, errorsCarry_parsePromTime rt _ err h2⟩
    unfold handleQueryRange
    rw [h1]
    simp only
    rw [h2]
  · intro step start err h1 h2 h3
    refine ⟨?_, errorsCarry_parsePromTime rt _ err h3⟩
    unfold handleQueryRange
    rw [h1]
    simp only
    rw [h2]
    simp only
    rw [h3]
  · intro err h
    refine ⟨?_, errorsCarry_parsePromTime rt _ err h⟩
    unfold handleQuery
    rw [h]

/-- Witness of `bad_parameter_rejected`: the step `abc`. -/
theorem bad_parameter_rejected_witness :
    handleQueryRange testRuntime (fun _ => 0) testConfigRange testRequestBadStep
      = Outcome.respond 400
          ("time: invalid duration ".toList ++ [dquote] ++ "abc".toList ++ [dquote]
            ++ "\n".toList)
    ∧ carriesRaw "abc".toList
        ("time: invalid duration ".toList ++ [dquote] ++ "abc".toList ++ [dquote]) :=
  (bad_parameter_rejected testRuntime (fun _ => 0) testConfigRange testRequestBadStep).1
    (invalidDuration "abc".toList) (by decide)

set_option maxRecDepth 100000 in
/-- C7, as stated, fails in one point: the body need not hold the raw string.
For the step `5µ`, which names no unit, `handleQueryRange` replies 400 with
the text of the error of `time.ParseDuration`, in which the micro sign stands
as the escape `\xc2\xb5`: the raw string `5µ` does not occur in the body, all
of whose characters are ASCII. -/
theorem bad_parameter_escaped :
    testRequestMicro.queryGet "step".toList = "5µ".toList
    ∧ parsePromDuration testRuntime "5µ".toList
        = Except.error (GoError.errorString microErrorText)
    ∧ handleQueryRange testRuntime (fun _ => 0) testConfigRange testRequestMicro
        = Outcome.respond 400 (microErrorText ++ "\n".toList)
    ∧ ¬ ("5µ".toList <:+: microErrorText ++ "\n".toList)
    ∧ (∀ c ∈ microErrorText ++ "\n".toList, c.toNat < 128)
    ∧ (∃ c ∈ "5µ".toList, 128 ≤ c.toNat)
    ∧ timeQuote "5µ".toList <:+: microErrorText ++ "\n".toList := by
  decide

/-! ### Exact float arithmetic -/

theorem bitLen_le (fuel : Nat) : ∀ (n b : Nat), n < 2 ^ b → bitLen fuel n ≤ b := by
  induction fuel with
  | zero => intro n b _; simp [bitLen]
  | succ fuel ih =>
    intro n b hn
    unfold bitLen
    by_cases h0 : n = 0
    · simp [h0]
    · rw [if_neg h0]
      cases b with
      | zero => simp at hn; exact absurd hn h0
      | succ b =>
        have : n / 2 < 2 ^ b := by
          rw [Nat.div_lt_iff_lt_mul (by decide)]
          rw [pow_succ] at hn
          exact hn
        have := ih (n / 2) b this
        omega

theorem roundHalfEven_exact (q m : Nat) (hq : 0 < q) : roundHalfEven (q * m) q = m := by
  unfold roundHalfEven
  simp only [Nat.mul_mod_right, Nat.mul_zero]
  rw [if_pos hq, Nat.mul_div_cancel_left m hq]

/-- Rounding keeps a value that has at most 53 significant bits. -/
theorem Float64.round_exact (q k t : Nat) (hq : 0 < q) (hk : k < 2 ^ 53)
    (hu : k * 2 ^ t < 2 ^ 2098) : Float64.round (q * (k * 2 ^ t)) q = Float64.fin (k * 2 ^ t) := by
  unfold Float64.round
  simp only
  rw [Nat.mul_div_cancel_left _ hq]
  have hlen : bitLen (k * 2 ^ t) (k * 2 ^ t) ≤ 53 + t := by
    apply bitLen_le
    rw [pow_add]
    exact Nat.mul_lt_mul_of_lt_of_le hk (le_refl _) (by positivity)
  have hsh : bitLen (k * 2 ^ t) (k * 2 ^ t) - 53 ≤ t := by omega
  generalize bitLen (k * 2 ^ t) (k * 2 ^ t) - 53 = sh at hsh ⊢
  have e1 : q * (k * 2 ^ t) = (q * 2 ^ sh) * (k * 2 ^ (t - sh)) := by
    have : 2 ^ t = 2 ^ sh * 2 ^ (t - sh) := by
      rw [← pow_add]; congr 1; omega
    rw [this]; ring
  rw [e1, roundHalfEven_exact _ _ (by positivity)]
  have e2 : 2 ^ sh * (k * 2 ^ (t - sh)) = k * 2 ^ t := by
    have : 2 ^ t = 2 ^ sh * 2 ^ (t - sh) := by
      rw [← pow_add]; congr 1; omega
    rw [this]; ring
  rw [e2, if_pos hu]

/-- An integer with at most 53 significant bits is a float. -/
theorem Float64.ofNat_exact (k t : Nat) (hk : k < 2 ^ 53) (hu : k * 2 ^ t < 2 ^ 1024) :
    Float64.ofNat (k * 2 ^ t) = Float64.fin (k * 2 ^ t * 2 ^ 1074) := by
  unfold Float64.ofNat Float64.ofRat
  have h := Float64.round_exact 1 k (t + 1074) (by decide) hk (by
    rw [pow_add, ← mul_assoc]
    calc k * 2 ^ t * 2 ^ 1074 < 2 ^ 1024 * 2 ^ 1074 :=
          Nat.mul_lt_mul_of_lt_of_le hu (le_refl _) (by positivity)
      _ = 2 ^ 2098 := by rw [← pow_add])
  rw [one_mul] at h
  have e : k * 2 ^ (t + 1074) = k * 2 ^ t * 2 ^ 1074 := by rw [pow_add, mul_assoc]
  rw [e] at h
  exact h

/-- The product of two integers is exact when it has at most 53 significant
bits. -/
theorem Float64.mul_exact (a b k t : Nat) (hab : a * b = k * 2 ^ t) (hk : k < 2 ^ 53)
    (hu : k * 2 ^ t < 2 ^ 1024) :
    Float64.mul (Float64.fin (a * 2 ^ 1074)) (Float64.fin (b * 2 ^ 1074))
      = Float64.fin (a * b * 2 ^ 1074) := by
  have h := Float64.round_exact (2 ^ 1074) k (t + 1074) (by positivity) hk (by
    rw [pow_add, ← mul_assoc]
    calc k * 2 ^ t * 2 ^ 1074 < 2 ^ 1024 * 2 ^ 1074 :=
          Nat.mul_lt_mul_of_lt_of_le hu (le_refl _) (by positivity)
      _ = 2 ^ 2098 := by rw [← pow_add])
  have e : k * 2 ^ (t + 1074) = a * b * 2 ^ 1074 := by rw [pow_add, ← mul_assoc, hab]
  rw [e] at h
  have e2 : a * 2 ^ 1074 * (b * 2 ^ 1074) = 2 ^ 1074 * (a * b * 2 ^ 1074) := by ring
  show Float64.round (a * 2 ^ 1074 * (b * 2 ^ 1074)) (2 ^ 1074) = _
  rw [e2]
  exact h

/-! ### Decimal digits -/

theorem digitChar_spec : ∀ k : Nat, k < 10 →
    (Nat.digitChar k).isDigit = true ∧ digitVal (Nat.digitChar k) = k
      ∧ '0' ≤ Nat.digitChar k ∧ Nat.digitChar k ≤ '9' := by
  decide

theorem decimalValue_nil (acc : Nat) : decimalValue acc [] = acc := rfl

theorem decimalValue_cons (acc : Nat) (c : Char) (cs : GoString) :
    decimalValue acc (c :: cs) = decimalValue (acc * 10 + digitVal c) cs := rfl

theorem decimalValue_append (xs : GoString) :
    ∀ (acc : Nat) (ys : GoString),
      decimalValue acc (xs ++ ys) = decimalValue (decimalValue acc xs) ys := by
  induction xs with
  | nil => intro acc ys; rw [List.nil_append, decimalValue_nil]
  | cons c cs ih =>
    intro acc ys
    rw [List.cons_append, decimalValue_cons, decimalValue_cons, ih]

theorem toDigitsCore_spec (fuel : Nat) :
    ∀ (n : Nat) (ds : GoString), n < fuel →
      ∃ pre : GoString, Nat.toDigitsCore 10 fuel n ds = pre ++ ds ∧ pre ≠ [] ∧ allDigits pre
        ∧ ∀ acc, decimalValue acc pre = acc * 10 ^ pre.length + n := by
  induction fuel with
  | zero => intro n ds h; omega
  | succ fuel ih =>
    intro n ds hn
    have hd := digitChar_spec (n % 10) (Nat.mod_lt _ (by decide))
    simp only [Nat.toDigitsCore]
    by_cases h0 : n / 10 = 0
    · rw [if_pos h0]
      refine ⟨[Nat.digitChar (n % 10)], rfl, by simp, ?_, ?_⟩
      · intro c hc
        simp only [List.mem_singleton] at hc
        rw [hc]
        exact ⟨hd.1, hd.2.2⟩
      · intro acc
        simp only [decimalValue_cons, decimalValue_nil, hd.2.1, List.length_singleton, pow_one]
        omega
    · rw [if_neg h0]
      obtain ⟨pre, h1, h2, h3, h4⟩ := ih (n / 10) (Nat.digitChar (n % 10) :: ds) (by omega)
      refine ⟨pre ++ [Nat.digitChar (n % 10)], by rw [h1]; simp, by simp, ?_, ?_⟩
      · intro c hc
        rcases List.mem_append.1 hc with hc | hc
        · exact h3 c hc
        · simp only [List.mem_singleton] at hc
          rw [hc]
          exact ⟨hd.1, hd.2.2⟩
      · intro acc
        rw [decimalValue_append, h4]
        simp only [decimalValue_cons, decimalValue_nil, hd.2.1, List.length_append,
          List.length_singleton, pow_succ]
        have := Nat.div_add_mod n 10
        nlinarith [this]

theorem toDigits_spec (n : Nat) :
    Nat.toDigits 10 n ≠ [] ∧ allDigits (Nat.toDigits 10 n)
      ∧ decimalValue 0 (Nat.toDigits 10 n) = n := by
  obtain ⟨pre, h1, h2, h3, h4⟩ := toDigitsCore_spec (n + 1) n [] (by omega)
  unfold Nat.toDigits
  rw [h1, List.append_nil]
  exact ⟨h2, h3, by rw [h4]; simp⟩

theorem takeWhile_allDigits (ds : GoString) (h : allDigits ds) :
    ds.takeWhile Char.isDigit = ds ∧ ds.dropWhile Char.isDigit = [] := by
  induction ds with
  | nil => exact ⟨rfl, rfl⟩
  | cons c cs ih =>
    have hc := (h c (by simp)).1
    have := ih (fun d hd => h d (by simp [hd]))
    simp [List.takeWhile, List.dropWhile, hc, this.1, this.2]

theorem isDigit_of_allDigits (ds : GoString) (hne : ds ≠ []) (h : allDigits ds) :
    isDigit ds = true := by
  rw [isDigit_iff]
  exact ⟨hne, fun c hc => Or.inl (h c hc).2⟩

theorem decimalValue_ge (cs : GoString) : ∀ acc : Nat, acc ≤ decimalValue acc cs := by
  induction cs with
  | nil => intro acc; exact le_refl _
  | cons c cs ih =>
    intro acc
    rw [decimalValue_cons]
    have := ih (acc * 10 + digitVal c)
    omega

theorem leadingInt_allDigits (ds : GoString) (h : allDigits ds) :
    ∀ (x : Nat) (u : Char) (rest : GoString), u.isDigit = false →
      decimalValue x ds ≤ 2 ^ 63 →
      leadingInt x (ds ++ u :: rest) = some (decimalValue x ds, u :: rest) := by
  induction ds with
  | nil =>
    intro x u rest hu _
    simp [leadingInt, decimalValue_nil, hu]
  | cons c cs ih =>
    intro x u rest hu hle
    have hc := (h c (by simp)).1
    rw [decimalValue_cons] at hle ⊢
    have hge := decimalValue_ge cs (x * 10 + digitVal c)
    have h63 : (2 : Nat) ^ 63 = 9223372036854775808 := by norm_num
    rw [h63] at hle
    simp only [List.cons_append, leadingInt, hc, if_true]
    rw [if_neg (by rw [h63]; omega), if_neg (by rw [h63]; omega)]
    exact ih (fun d hd => h d (by simp [hd])) _ u rest hu (by rw [h63]; exact hle)

/-! ### The two forms of a duration -/

theorem ofNat_small (n : Nat) (h : n < 2 ^ 53) :
    Float64.ofNat n = Float64.fin (n * 2 ^ 1074) := by
  have := Float64.ofNat_exact n 0 h (by
    rw [pow_zero, mul_one]
    exact lt_of_lt_of_le h (Nat.pow_le_pow_right (by decide) (by decide)))
  rw [pow_zero, mul_one] at this
  exact this

theorem strconvParseFloat_digits (ds : GoString) (hne : ds ≠ []) (hall : allDigits ds)
    (hfin : decimalValue 0 ds < 2 ^ 53) :
    strconvParseFloat ds = Except.ok (Float64.fin (decimalValue 0 ds * 2 ^ 1074)) := by
  have tw := takeWhile_allDigits ds hall
  unfold strconvParseFloat
  simp only [tw.1, tw.2, List.head?_nil, reduceCtorEq, if_false, Nat.sub_self, pow_zero, hne,
    ne_eq, not_true_eq_false, or_self]
  have : Float64.ofRat (decimalValue 0 ds) 1 = Float64.fin (decimalValue 0 ds * 2 ^ 1074) :=
    ofNat_small _ hfin
  rw [this]

theorem secondsToNanos_exact (n : Nat)
    (h : n * 1000000000 < 2 ^ 62 ∨ (n * 1000000000 < 2 ^ 63 ∧ 2 ∣ n)) :
    secondsToNanos (Float64.fin (n * 2 ^ 1074))
      = Float64.fin (n * 1000000000 * 2 ^ 1074) := by
  have h62 : (2 : Nat) ^ 62 = 4611686018427387904 := by norm_num
  have h63 : (2 : Nat) ^ 63 = 9223372036854775808 := by norm_num
  have h53 : (2 : Nat) ^ 53 = 9007199254740992 := by norm_num
  have h64 : (2 : Nat) ^ 64 = 18446744073709551616 := by norm_num
  rw [h62, h63] at h
  have hn : n < 9223372037 := by omega
  have big : ∀ x : Nat, x < 2 ^ 64 → x < 2 ^ 1024 := fun x hx =>
    lt_of_lt_of_le hx (Nat.pow_le_pow_right (by decide) (by decide))
  have e1000 : Float64.ofNat 1000 = Float64.fin (1000 * 2 ^ 1074) :=
    ofNat_small 1000 (by rw [h53]; decide)
  unfold secondsToNanos
  rw [e1000]
  have m1 := Float64.mul_exact n 1000 (n * 125) 3 (by ring) (by rw [h53]; omega)
    (big _ (by rw [h64]; omega))
  rw [m1]
  have m2 := Float64.mul_exact (n * 1000) 1000 (n * 15625) 6 (by ring) (by rw [h53]; omega)
    (big _ (by rw [h64]; omega))
  rw [m2]
  have m3 : Float64.mul (Float64.fin (n * 1000 * 1000 * 2 ^ 1074)) (Float64.fin (1000 * 2 ^ 1074))
      = Float64.fin (n * 1000 * 1000 * 1000 * 2 ^ 1074) := by
    rcases h with h | ⟨h, m, hm⟩
    · exact Float64.mul_exact (n * 1000 * 1000) 1000 (n * 1953125) 9 (by ring)
        (by rw [h53]; omega) (big _ (by rw [h64]; omega))
    · subst hm
      exact Float64.mul_exact (2 * m * 1000 * 1000) 1000 (m * 1953125) 10 (by ring)
        (by rw [h53]; omega) (big _ (by rw [h64]; omega))
  rw [m3]
  have e : n * 1000 * 1000 * 1000 = n * 1000000000 := by ring
  rw [e]

theorem toInt64_exact (rt : Runtime) (n : Nat) (h : n < 2 ^ 63) :
    toInt64 rt (Float64.fin (n * 2 ^ 1074)) = (n : Int) := by
  unfold toInt64 Float64.trunc
  simp only
  rw [Nat.mul_div_cancel _ (by positivity), if_pos h]

theorem parsePromDuration_bare (rt : Runtime) (ds : GoString) (n : Nat) (hne : ds ≠ [])
    (hall : allDigits ds) (hval : decimalValue 0 ds = n)
    (h : n * 1000000000 < 2 ^ 62 ∨ (n * 1000000000 < 2 ^ 63 ∧ 2 ∣ n)) :
    parsePromDuration rt ds = Except.ok ((n : Int) * 1000000000) := by
  have h63 : n * 1000000000 < 2 ^ 63 := by
    rcases h with h | h
    · exact lt_trans h (by norm_num)
    · exact h.1
  have hn53 : n < 2 ^ 53 := by
    have h63' : (2 : Nat) ^ 63 = 9223372036854775808 := by norm_num
    have h53 : (2 : Nat) ^ 53 = 9007199254740992 := by norm_num
    rw [h63'] at h63
    rw [h53]
    omega
  unfold parsePromDuration
  rw [if_pos (isDigit_of_allDigits _ hne hall),
    strconvParseFloat_digits _ hne hall (by rw [hval]; exact hn53), hval]
  simp only
  rw [secondsToNanos_exact n h, toInt64_exact rt _ h63]
  push_cast
  rfl

theorem parsePromDuration_digits (rt : Runtime) (n : Nat)
    (h : n * 1000000000 < 2 ^ 62 ∨ (n * 1000000000 < 2 ^ 63 ∧ 2 ∣ n)) :
    parsePromDuration rt (Nat.toDigits 10 n) = Except.ok ((n : Int) * 1000000000) := by
  obtain ⟨hne, hall, hval⟩ := toDigits_spec n
  exact parsePromDuration_bare rt _ n hne hall hval h

theorem durationUnit_seconds (orig : GoString) (n : Nat) (scale : Float64)
    (h : n * 1000000000 < 2 ^ 63) :
    durationUnit orig 0 n 0 scale "s".toList = Except.ok (n * 1000000000, []) := by
  have h63 : (2 : Nat) ^ 63 = 9223372036854775808 := by norm_num
  have h64 : (2 : Nat) ^ 64 = 18446744073709551616 := by norm_num
  rw [h63] at h
  have hu : ("s".toList).takeWhile (fun c => !endsUnit c) = "s".toList := by decide
  have hd : ("s".toList).dropWhile (fun c => !endsUnit c) = [] := by decide
  have hm : unitMap "s".toList = some 1000000000 := by decide
  have hne : ¬ "s".toList = ([] : GoString) := by decide
  unfold durationUnit
  simp only [hu, hd, hm, hne, if_false, lt_irrefl, false_and, gt_iff_lt, Nat.zero_add]
  rw [h63, h64, Nat.mod_eq_of_lt (by omega), if_neg (by omega), if_neg (by omega)]

theorem durationTurn_seconds (orig : GoString) (n : Nat) (h : n * 1000000000 < 2 ^ 63) :
    durationTurn orig 0 (Nat.toDigits 10 n ++ "s".toList)
      = Except.ok (n * 1000000000, []) := by
  obtain ⟨hne, hall, hval⟩ := toDigits_spec n
  have h63 : (2 : Nat) ^ 63 = 9223372036854775808 := by norm_num
  have hlead := leadingInt_allDigits (Nat.toDigits 10 n) hall 0 's' [] (by decide)
    (by rw [hval, h63]; rw [h63] at h; omega)
  rw [hval] at hlead
  have hs : "s".toList = ['s'] := rfl
  cases hds : Nat.toDigits 10 n with
  | nil => exact absurd hds hne
  | cons c cs =>
    rw [hds] at hlead hall
    have hc : c.isDigit = true := (hall c (by simp)).1
    unfold durationTurn
    rw [hs, hlead]
    have hcond : (!((c :: cs ++ ['s']).head? == some '.'
        || (Option.map Char.isDigit (c :: cs ++ ['s']).head?).getD false)) = false := by
      simp [hc]
    rw [if_neg (by rw [hcond]; decide)]
    dsimp only
    have hdot : (['s'].head? == some '.') = false := by decide
    rw [hdot]
    have hpre : ((c :: cs ++ ['s']).length != ['s'].length) = true := by
      simp
    rw [hpre, Bool.not_true, Bool.false_and, if_neg Bool.false_ne_true,
      if_neg Bool.false_ne_true]
    exact durationUnit_seconds orig n _ h

theorem timeParseDuration_seconds (n : Nat) (h : n * 1000000000 < 2 ^ 63) :
    timeParseDuration (Nat.toDigits 10 n ++ "s".toList)
      = Except.ok ((n : Int) * 1000000000) := by
  obtain ⟨hne, hall, hval⟩ := toDigits_spec n
  have hturn := durationTurn_seconds (Nat.toDigits 10 n ++ "s".toList) n h
  have h63 : (2 : Nat) ^ 63 = 9223372036854775808 := by norm_num
  rw [h63] at h
  cases hds : Nat.toDigits 10 n with
  | nil => exact absurd hds hne
  | cons c cs =>
    rw [hds] at hturn hall
    have hc : c.isDigit = true := (hall c (by simp)).1
    have hminus : (some c == some '-') = false := by
      have : c ≠ '-' := by rintro rfl; revert hc; decide
      simpa using this
    have hplus : (some c == some '+') = false := by
      have : c ≠ '+' := by rintro rfl; revert hc; decide
      simpa using this
    have hzero : ¬ (c :: cs ++ "s".toList = "0".toList) := by
      intro hc0
      have := congrArg List.length hc0
      simp at this
    have hnil : ¬ (c :: cs ++ "s".toList = []) := by simp
    unfold timeParseDuration
    simp only [List.cons_append, List.head?_cons, hminus, hplus, Bool.or_self,
      Bool.false_eq_true, if_false]
    simp only [List.cons_append] at hzero hnil hturn
    rw [if_neg hzero, if_neg hnil]
    have hloop : parseDurationLoop (c :: (cs ++ "s".toList))
        ((c :: (cs ++ "s".toList)).length + 1) 0 (c :: (cs ++ "s".toList))
        = Except.ok (n * 1000000000) := by
      rw [parseDurationLoop, if_neg hnil, hturn]
      simp only [List.length_cons]
      rw [parseDurationLoop, if_pos rfl]
    rw [hloop]
    simp only
    rw [if_neg (by rw [h63]; omega)]
    push_cast
    rfl

theorem unitMap_facts (u : GoString) (k : Nat) (h : unitMap u = some k) :
    u ≠ [] ∧ (∀ c ∈ u, endsUnit c = false ∧ ¬ (('0' ≤ c ∧ c ≤ '9') ∨ c = '.')) ∧ 1 ≤ k := by
  unfold unitMap at h
  split_ifs at h with h1 h2 h3 h4 h5 h6 h7 h8
  all_goals (cases h; subst_vars; decide)

theorem takeWhile_append_of (p : Char → Bool) (u rest : GoString) (hu : ∀ c ∈ u, p c = true)
    (hr : ∀ c, rest.head? = some c → p c = false) :
    (u ++ rest).takeWhile p = u ∧ (u ++ rest).dropWhile p = rest := by
  induction u with
  | nil =>
    cases rest with
    | nil => exact ⟨rfl, rfl⟩
    | cons c cs =>
      have := hr c rfl
      simp [List.takeWhile, List.dropWhile, this]
  | cons c cs ih =>
    have hc := hu c (by simp)
    have := ih (fun d hd => hu d (by simp [hd]))
    simp [List.takeWhile, List.dropWhile, hc, this.1, this.2]

theorem literalText_nil : literalText [] = [] := rfl

theorem literalText_cons (g : DurationGroup) (gs : List DurationGroup) :
    literalText (g :: gs) = g.digits ++ (g.unit ++ literalText gs) := by
  simp [literalText, List.flatMap_cons]

theorem literalNanos_nil : literalNanos [] = 0 := rfl

theorem literalNanos_cons (g : DurationGroup) (gs : List DurationGroup) :
    literalNanos (g :: gs)
      = decimalValue 0 g.digits * (unitMap g.unit).getD 0 + literalNanos gs := by
  simp [literalNanos]

theorem literalText_head (gs : List DurationGroup) (h : ∀ g ∈ gs, WholeGroup g) :
    ∀ c, (literalText gs).head? = some c → c.isDigit = true := by
  intro c hc
  cases gs with
  | nil => simp [literalText_nil] at hc
  | cons g gs =>
    obtain ⟨hne, hall, _⟩ := h g (by simp)
    rw [literalText_cons] at hc
    cases hd : g.digits with
    | nil => exact absurd hd hne
    | cons d ds =>
      rw [hd] at hc hall
      simp at hc
      rw [← hc]
      exact (hall d (by simp)).1

theorem durationUnit_group (orig : GoString) (d v k : Nat) (scale : Float64) (u rest : GoString)
    (hk : unitMap u = some k) (hr : ∀ c, rest.head? = some c → c.isDigit = true)
    (h : d + v * k < 2 ^ 63) :
    durationUnit orig d v 0 scale (u ++ rest) = Except.ok (d + v * k, rest) := by
  obtain ⟨hne, hends, hk1⟩ := unitMap_facts u k hk
  have tw := takeWhile_append_of (fun c => !endsUnit c) u rest
    (by intro c hc; simp [(hends c hc).1])
    (by intro c hc; simp [endsUnit, hr c hc])
  have h63 : (2 : Nat) ^ 63 = 9223372036854775808 := by norm_num
  have h64 : (2 : Nat) ^ 64 = 18446744073709551616 := by norm_num
  have hv : ¬ (v > 2 ^ 63 / k) := by
    rw [gt_iff_lt, not_lt, Nat.le_div_iff_mul_le (by omega)]
    omega
  unfold durationUnit
  simp only [tw.1, tw.2, hk, hne, if_false, lt_irrefl, false_and, gt_iff_lt]
  rw [if_neg hv]
  rw [h63] at h
  generalize v * k = w at h
  rw [h63, h64, Nat.mod_eq_of_lt (by omega), if_neg (by omega)]

theorem durationTurn_digits (orig : GoString) (d : Nat) (ds : GoString) (c0 : Char)
    (tail : GoString) (hne : ds ≠ []) (hall : allDigits ds) (hc0 : c0.isDigit = false)
    (hdot0 : c0 ≠ '.') (hle : decimalValue 0 ds ≤ 2 ^ 63) :
    durationTurn orig d (ds ++ c0 :: tail)
      = durationUnit orig d (decimalValue 0 ds) 0 (Float64.ofNat 1) (c0 :: tail) := by
  have hlead := leadingInt_allDigits ds hall 0 c0 tail hc0 hle
  cases hds : ds with
  | nil => exact absurd hds hne
  | cons c cs =>
    rw [hds] at hlead hall
    have hc : c.isDigit = true := (hall c (by simp)).1
    unfold durationTurn
    rw [hlead]
    have hcond : (!((c :: cs ++ c0 :: tail).head? == some '.'
        || (Option.map Char.isDigit (c :: cs ++ c0 :: tail).head?).getD false)) = false := by
      simp [hc]
    rw [if_neg (by rw [hcond]; decide)]
    dsimp only
    have hdot : ((c0 :: tail).head? == some '.') = false := by
      simpa using hdot0
    rw [hdot]
    have hpre : ((c :: cs ++ c0 :: tail).length != (c0 :: tail).length) = true := by
      simp
      omega
    rw [hpre, Bool.not_true, Bool.false_and, if_neg Bool.false_ne_true,
      if_neg Bool.false_ne_true]

theorem durationTurn_group (orig : GoString) (d k : Nat) (ds u rest : GoString)
    (hne : ds ≠ []) (hall : allDigits ds) (hk : unitMap u = some k)
    (hr : ∀ c, rest.head? = some c → c.isDigit = true)
    (h : d + decimalValue 0 ds * k < 2 ^ 63) :
    durationTurn orig d (ds ++ (u ++ rest)) = Except.ok (d + decimalValue 0 ds * k, rest) := by
  obtain ⟨hune, hends, hk1⟩ := unitMap_facts u k hk
  have hle : decimalValue 0 ds ≤ 2 ^ 63 := by
    have : decimalValue 0 ds ≤ decimalValue 0 ds * k := Nat.le_mul_of_pos_right _ hk1
    omega
  cases hu : u with
  | nil => exact absurd hu hune
  | cons c0 us =>
    have hc0 := (hends c0 (by rw [hu]; simp)).1
    have hdig : c0.isDigit = false := by
      simp [endsUnit] at hc0
      exact hc0.2
    have hdot : c0 ≠ '.' := by
      simp [endsUnit] at hc0
      exact hc0.1
    rw [List.cons_append, durationTurn_digits orig d ds c0 (us ++ rest) hne hall hdig hdot hle]
    have := durationUnit_group orig d (decimalValue 0 ds) k (Float64.ofNat 1) u rest hk hr h
    rw [hu] at this
    exact this

theorem parseDurationLoop_groups (orig : GoString) :
    ∀ (gs : List DurationGroup) (fuel d : Nat), (∀ g ∈ gs, WholeGroup g) →
      gs.length < fuel → d + literalNanos gs < 2 ^ 63 →
      parseDurationLoop orig fuel d (literalText gs) = Except.ok (d + literalNanos gs) := by
  intro gs
  induction gs with
  | nil =>
    intro fuel d _ hf _
    cases fuel with
    | zero => simp at hf
    | succ fuel =>
      rw [literalText_nil, parseDurationLoop, if_pos rfl, literalNanos_nil, Nat.add_zero]
  | cons g gs ih =>
    intro fuel d hw hf hsum
    cases fuel with
    | zero => simp at hf
    | succ fuel =>
      obtain ⟨hne, hall, hunit⟩ := hw g (by simp)
      have hw2 : ∀ g2 ∈ gs, WholeGroup g2 := fun g2 h2 => hw g2 (by simp [h2])
      cases hk : unitMap g.unit with
      | none => exact absurd hk hunit
      | some k =>
        rw [literalNanos_cons, hk, Option.getD_some] at hsum ⊢
        have hturn := durationTurn_group orig d k g.digits g.unit (literalText gs) hne hall hk
          (literalText_head gs hw2) (by omega)
        have hnil : ¬ (literalText (g :: gs) = []) := by
          rw [literalText_cons]
          cases hd : g.digits with
          | nil => exact absurd hd hne
          | cons c cs => simp
        rw [parseDurationLoop, if_neg hnil, literalText_cons, hturn]
        simp only
        rw [ih fuel _ hw2 (by simpa using hf) (by omega)]
        congr 1
        omega

theorem literalText_length (gs : List DurationGroup) (h : ∀ g ∈ gs, WholeGroup g) :
    2 * gs.length ≤ (literalText gs).length := by
  induction gs with
  | nil => simp
  | cons g gs ih =>
    obtain ⟨hne, _, hunit⟩ := h g (by simp)
    have := ih (fun g2 h2 => h g2 (by simp [h2]))
    rw [literalText_cons]
    have h1 : 1 ≤ g.digits.length := by
      cases hd : g.digits with
      | nil => exact absurd hd hne
      | cons c cs => simp
    have h2 : 1 ≤ g.unit.length := by
      cases hk : unitMap g.unit with
      | none => exact absurd hk hunit
      | some k =>
        have := (unitMap_facts _ k hk).1
        cases hd : g.unit with
        | nil => exact absurd hd this
        | cons c cs => simp
    simp only [List.length_append, List.length_cons]
    omega

theorem timeParseDuration_groups (gs : List DurationGroup) (hw : WholeLiteral gs)
    (h : literalNanos gs < 2 ^ 63) :
    timeParseDuration (literalText gs) = Except.ok ((literalNanos gs : Nat) : Int) := by
  obtain ⟨hgs, hall⟩ := hw
  have hlen := literalText_length gs hall
  have hhead := literalText_head gs hall
  have hloop := parseDurationLoop_groups (literalText gs) gs ((literalText gs).length + 1) 0
    hall (by omega) (by omega)
  rw [Nat.zero_add] at hloop
  have hgl : 1 ≤ gs.length := by
    cases gs with
    | nil => exact absurd rfl hgs
    | cons g gs => simp
  cases hs : literalText gs with
  | nil =>
    rw [hs] at hlen
    simp only [List.length_nil] at hlen
    omega
  | cons c cs =>
    rw [hs] at hloop hlen hhead
    have hc : c.isDigit = true := hhead c rfl
    have hminus : (some c == some '-') = false := by
      have : c ≠ '-' := by rintro rfl; revert hc; decide
      simpa using this
    have hplus : (some c == some '+') = false := by
      have : c ≠ '+' := by rintro rfl; revert hc; decide
      simpa using this
    have hzero : ¬ (c :: cs = "0".toList) := by
      intro hc0
      have h1 : (c :: cs).length = 1 := by rw [hc0]; rfl
      rw [h1] at hlen
      omega
    have hnil : ¬ (c :: cs = []) := by simp
    have h63 : (2 : Nat) ^ 63 = 9223372036854775808 := by norm_num
    unfold timeParseDuration
    simp only [List.head?_cons, hminus, hplus, Bool.or_self, Bool.false_eq_true, if_false]
    rw [if_neg hzero, if_neg hnil, hloop]
    simp only
    rw [if_neg (by rw [h63] at h ⊢; omega)]

theorem isDigit_literalText (gs : List DurationGroup) (hw : WholeLiteral gs) :
    isDigit (literalText gs) = false := by
  obtain ⟨hgs, hall⟩ := hw
  cases gs with
  | nil => exact absurd rfl hgs
  | cons g gs =>
    obtain ⟨_, _, hunit⟩ := hall g (by simp)
    cases hk : unitMap g.unit with
    | none => exact absurd hk hunit
    | some k =>
      obtain ⟨hune, hends, _⟩ := unitMap_facts _ k hk
      cases hu : g.unit with
      | nil => exact absurd hu hune
      | cons c0 us =>
        rw [Bool.eq_false_iff]
        intro hd
        have hmem : c0 ∈ literalText (g :: gs) := by
          rw [literalText_cons, hu]
          simp
        exact (hends c0 (by rw [hu]; simp)).2 (((isDigit_iff _).1 hd).2 c0 hmem)

theorem parsePromDuration_literal (rt : Runtime) (gs : List DurationGroup)
    (hw : WholeLiteral gs) (h : literalNanos gs < 2 ^ 63) :
    parsePromDuration rt (literalText gs) = Except.ok ((literalNanos gs : Nat) : Int) := by
  unfold parsePromDuration
  rw [isDigit_literalText gs hw]
  simp only [Bool.false_eq_true, if_false]
  rw [timeParseDuration_groups gs hw h]

/-- C8, as amended.  For every non-negative integer `n` whose count of
nanoseconds is below `2^62`, or is below `2^63` with `n` even: every bare
number of decimal digits that writes `n`, and every unit literal made of one
or more groups of decimal digits followed by a unit name (`ns`, `us`, `µs`,
`μs`, `ms`, `s`, `m`, `h`) whose values add up to `n` seconds, are given the
same value by `parsePromDuration`, namely `n * 10^9` nanoseconds.  In
particular the decimal digits of `n` and those digits followed by `s` both
give `n * 10^9` nanoseconds, and `120` and `2m` both give `120 * 10^9`. -/
theorem duration_forms_agree (rt : Runtime) (n : Nat)
    (h : n * 1000000000 < 2 ^ 62 ∨ (n * 1000000000 < 2 ^ 63 ∧ 2 ∣ n)) :
    (∀ (bare : GoString) (gs : List DurationGroup),
        bare ≠ [] → allDigits bare → decimalValue 0 bare = n →
        WholeLiteral gs → literalNanos gs = n * 1000000000 →
        parsePromDuration rt bare = parsePromDuration rt (literalText gs)
        ∧ parsePromDuration rt (literalText gs) = Except.ok ((n : Int) * 1000000000))
    ∧ parsePromDuration rt (Nat.toDigits 10 n) = Except.ok ((n : Int) * 1000000000)
    ∧ parsePromDuration rt (Nat.toDigits 10 n ++ "s".toList)
        = Except.ok ((n : Int) * 1000000000)
    ∧ parsePromDuration rt "120".toList = Except.ok 120000000000
    ∧ parsePromDuration rt "2m".toList = Except.ok 120000000000 := by
  have h63 : n * 1000000000 < 2 ^ 63 := by
    rcases h with h | h
    · exact lt_trans h (by norm_num)
    · exact h.1
  obtain ⟨hne, hall, hval⟩ := toDigits_spec n
  refine ⟨?_, parsePromDuration_digits rt n h, ?_, ?_, ?_⟩
  · intro bare gs hbne hball hbval hw hsum
    have hlit := parsePromDuration_literal rt gs hw (by rw [hsum]; exact h63)
    rw [hsum] at hlit
    have hlit2 : parsePromDuration rt (literalText gs) = Except.ok ((n : Int) * 1000000000) := by
      rw [hlit]
      push_cast
      rfl
    exact ⟨by rw [hlit2]; exact parsePromDuration_bare rt bare n hbne hball hbval h, hlit2⟩
  · have hnot : isDigit (Nat.toDigits 10 n ++ "s".toList) = false := by
      rw [Bool.eq_false_iff]
      intro hd
      have := ((isDigit_iff _).1 hd).2 's' (by simp)
      revert this
      decide
    unfold parsePromDuration
    rw [hnot]
    simp only [Bool.false_eq_true, if_false]
    rw [timeParseDuration_seconds n h63]
  · have := parsePromDuration_digits rt 120 (Or.inl (by norm_num))
    exact this
  · have hnot : isDigit "2m".toList = false := by decide
    have hpd : timeParseDuration "2m".toList = Except.ok 120000000000 := by decide
    unfold parsePromDuration
    rw [hnot]
    simp only [Bool.false_eq_true, if_false]
    rw [hpd]

/-- Witness of `duration_forms_agree`: an hour and a half, written `5400` and
`1h30m`. -/
theorem duration_forms_agree_witness :
    literalText testLiteral = "1h30m".toList
    ∧ parsePromDuration testRuntime "5400".toList
        = parsePromDuration testRuntime (literalText testLiteral)
    ∧ parsePromDuration testRuntime (literalText testLiteral)
        = Except.ok (((5400 : Nat) : Int) * 1000000000) :=
  ⟨by decide,
    (duration_forms_agree testRuntime 5400 (Or.inl (by norm_num))).1 "5400".toList testLiteral
      (by decide) (by decide) (by decide) (by decide) (by decide)⟩

set_option maxRecDepth 1000000 in
/-- C8, as stated, fails.  `4611686019` seconds fit in `int64` as nanoseconds,
yet `parsePromDuration` gives `4611686019000000512` for `4611686019`, since
the float product is rounded to 53 bits, and `4611686019000000000` for
`4611686019s`.  With a fraction the two forms differ already at small values:
`1.001` gives `1000999999` and `1.001s` gives `1001000000`; and the literal
`0.50000000000000m`, half a minute, gives `29999999999` where `30` gives
`30000000000`. -/
theorem duration_forms_disagree :
    (¬ ∀ (rt : Runtime) (n : Nat), n * 1000000000 < 2 ^ 63 →
        parsePromDuration rt (Nat.toDigits 10 n)
            = parsePromDuration rt (Nat.toDigits 10 n ++ "s".toList)
          ∧ parsePromDuration rt (Nat.toDigits 10 n) = Except.ok ((n : Int) * 1000000000))
    ∧ parsePromDuration testRuntime (Nat.toDigits 10 4611686019)
        = Except.ok 4611686019000000512
    ∧ parsePromDuration testRuntime (Nat.toDigits 10 4611686019 ++ "s".toList)
        = Except.ok 4611686019000000000
    ∧ parsePromDuration testRuntime "1.001".toList = Except.ok 1000999999
    ∧ parsePromDuration testRuntime "1.001s".toList = Except.ok 1001000000
    ∧ parsePromDuration testRuntime "0.50000000000000m".toList = Except.ok 29999999999
    ∧ parsePromDuration testRuntime "30".toList = Except.ok 30000000000 := by
  have hcode : parsePromDuration testRuntime (Nat.toDigits 10 4611686019)
      = Except.ok 4611686019000000512 := by decide
  refine ⟨?_, hcode, by decide, by decide, by decide, by decide, by decide⟩
  intro hall
  have h := (hall testRuntime 4611686019 (by norm_num)).2
  rw [hcode] at h
  revert h
  decide

/-! ### The fuel of the duration loop -/

theorem leadingInt_length (s : GoString) :
    ∀ (x v : Nat) (r : GoString), leadingInt x s = some (v, r) → r.length ≤ s.length := by
  induction s with
  | nil =>
    intro x v r h
    simp only [leadingInt, Option.some.injEq, Prod.mk.injEq] at h
    rw [← h.2]
  | cons c cs ih =>
    intro x v r h
    simp only [leadingInt] at h
    split at h
    · split at h
      · cases h
      · split at h
        · cases h
        · have := ih _ v r h
          simp only [List.length_cons]
          omega
    · simp only [Option.some.injEq, Prod.mk.injEq] at h
      rw [← h.2]

theorem leadingFraction_length (s : GoString) :
    ∀ (x : Nat) (scale : Float64) (o : Bool),
      (leadingFraction x scale o s).2.2.length ≤ s.length := by
  induction s with
  | nil => intro x scale o; simp [leadingFraction]
  | cons c cs ih =>
    intro x scale o
    simp only [leadingFraction]
    repeat' split
    all_goals first
      | exact le_refl _
      | (have h5 := ih x scale true
         simp only [List.length_cons]
         omega)
      | (have h5 := ih (x * 10 + digitVal c) (Float64.mul scale (Float64.ofNat 10)) false
         simp only [List.length_cons]
         omega)

theorem dropWhile_length_lt (p : Char → Bool) (s : GoString) (h : s.takeWhile p ≠ []) :
    (s.dropWhile p).length < s.length := by
  cases s with
  | nil => simp at h
  | cons c cs =>
    by_cases hc : p c = true
    · simp only [List.dropWhile_cons, hc, if_true, List.length_cons]
      have := (List.dropWhile_sublist p (l := cs)).length_le
      omega
    · simp [List.takeWhile_cons, hc] at h

theorem durationUnit_length (orig : GoString) (d v f : Nat) (scale : Float64) (s2 : GoString)
    (d1 : Nat) (s3 : GoString) (h : durationUnit orig d v f scale s2 = Except.ok (d1, s3)) :
    s3.length < s2.length := by
  unfold durationUnit at h
  simp only at h
  by_cases hu : s2.takeWhile (fun c => !endsUnit c) = []
  · rw [if_pos hu] at h
    cases h
  · rw [if_neg hu] at h
    have hlt := dropWhile_length_lt _ s2 hu
    repeat' split at h
    all_goals first
      | (cases h; done)
      | (cases h; exact hlt)

theorem durationTurn_length (orig : GoString) (d : Nat) (s : GoString) (d1 : Nat)
    (s3 : GoString) (h : durationTurn orig d s = Except.ok (d1, s3)) :
    s3.length < s.length := by
  unfold durationTurn at h
  split at h
  · cases h
  · cases hl : leadingInt 0 s with
    | none => rw [hl] at h; cases h
    | some p =>
      obtain ⟨v, s1⟩ := p
      rw [hl] at h
      simp only at h
      have h1 := leadingInt_length s 0 v s1 hl
      have h3 := leadingFraction_length (s1.drop 1) 0 (Float64.ofNat 1) false
      have h4 := List.length_drop 1 s1
      by_cases hdot : (s1.head? == some '.') = true
      · rw [if_pos hdot] at h
        split at h
        · cases h
        · have h2 := durationUnit_length _ _ _ _ _ _ _ _ h
          omega
      · rw [if_neg hdot] at h
        split at h
        · cases h
        · have h2 := durationUnit_length _ _ _ _ _ _ _ _ h
          simp only at h2
          omega

/-- The fuel of `parseDurationLoop` is never exhausted: with any fuel above
the length of the rest, the loop gives the same result. -/
theorem parseDurationLoop_fuel (orig : GoString) (fuel₁ : Nat) :
    ∀ (fuel₂ d : Nat) (s : GoString), s.length < fuel₁ → s.length < fuel₂ →
      parseDurationLoop orig fuel₁ d s = parseDurationLoop orig fuel₂ d s := by
  induction fuel₁ with
  | zero => intro fuel₂ d s h; omega
  | succ fuel₁ ih =>
    intro fuel₂ d s h1 h2
    cases fuel₂ with
    | zero => omega
    | succ fuel₂ =>
      rw [parseDurationLoop, parseDurationLoop]
      by_cases hs : s = []
      · rw [if_pos hs, if_pos hs]
      · rw [if_neg hs, if_neg hs]
        cases hturn : durationTurn orig d s with
        | error e => rfl
        | ok p =>
          obtain ⟨d1, s3⟩ := p
          have := durationTurn_length orig d s d1 s3 hturn
          exact ih fuel₂ d1 s3 (by omega) (by omega)

/-! ### Ordinary durations -/

/-- Durations that are non-negative `int64` values are in range: with a
non-negative step and datasources of non-negative resolution and retention,
neither `ds.Retention * -1` nor `step - ds.Resolution` wraps. -/
theorem inRange_of_nonneg (step : Int) (ds : DatasourceConfig)
    (hstep : 0 ≤ step ∧ step < 2 ^ 63) (hres : 0 ≤ ds.Resolution ∧ ds.Resolution < 2 ^ 63)
    (hret : 0 ≤ ds.Retention ∧ ds.Retention < 2 ^ 63) :
    retentionInRange ds ∧ gapInRange step ds := by
  unfold retentionInRange gapInRange isInt64
  norm_num at hstep hres hret ⊢
  omega

end PromQueryProxy
